import Mathlib

/-!
# YUView: `ParserAnnexBVVC::parseAndAddNALUnit`

A shallow embedding of `src/YUViewLib/src/parser/VVC/ParserAnnexBVVC.cpp` and a
verification of the access-unit bookkeeping it performs.

Conventions of the embedding

* A `QByteArray` is a list of byte values; `data.at(i)` is only defined for
  `i < data.size()`, so a read outside the buffer makes the whole call undefined
  (`none`).
* The members `counterAU`, `sizeCurrentAU` and `curFrameFileStartEndPos` are declared
  in the class header, which is not part of the sources; the two counters are
  unbounded naturals here and the pair starts as `(0, 0)`.
* Code of the repository that the function calls but that is not part of the
  sources (`NalUnitVVC::parse_nal_unit_header`, `NalUnitVVC::isAUDelimiter`,
  `SPS::parse`, the constant `SPS_NUT`, `packetModel->isNull()`, the acceptance test of
  `addFrameToList`) is collected in the parameter record `Env`.
-/

namespace YUView

/-- Bytes of a `QByteArray`, each a value in `0..255`. -/
abbrev QByteArray := List Nat

/-- Start and end position of a unit in the file (`QUint64Pair`). -/
abbrev QUint64Pair := Nat × Nat

/-- What `parse_nal_unit_header` stores in the `NalUnitVVC` on success. -/
structure NalHeader where
  nal_unit_type_id : Nat
  nal_unit_type : Nat
  deriving DecidableEq, Repr

/-- The object `NalUnitVVC nal(nalStartEndPosFile, nalID)` after its header was parsed. -/
structure NalUnitVVC where
  nalStartEndPosFile : QUint64Pair
  nal_idx : Int
  nal_unit_type_id : Nat
  nal_unit_type : Nat
  deriving DecidableEq, Repr

/-- The object `SPS(nal)` after `parse`: the unit it was built from, the parameter-set id
and whether the payload parse succeeded. -/
structure SPS where
  nal : NalUnitVVC
  sps_seq_parameter_set_id : Nat
  parsed : Bool
  deriving DecidableEq, Repr

/-- One entry of the frame list (the Frame Index). -/
structure FrameEntry where
  poc : Nat
  fileStartEndPos : QUint64Pair
  randomAccessPoint : Bool
  deriving DecidableEq, Repr

/-- The record `BitratePlotModel::bitrateEntry`. -/
structure BitrateEntry where
  pts : Nat
  dts : Nat
  bitrate : Nat
  keyframe : Bool
  deriving DecidableEq, Repr

/-- The collaborators of `parseAndAddNALUnit` that are not part of the sources. -/
structure Env where
  /-- The method `NalUnitVVC::parse_nal_unit_header` on the two header bytes. -/
  parse_nal_unit_header : QByteArray → Option NalHeader
  /-- The method `NalUnitVVC::isAUDelimiter`, a predicate of the unit type. -/
  isAUDelimiter : Nat → Bool
  /-- The unit type `SPS_NUT`. -/
  SPS_NUT : Nat
  /-- The method `SPS::parse` on the payload: success flag and the value of
  `sps_seq_parameter_set_id` afterwards. -/
  spsParse : QByteArray → Bool × Nat
  /-- Whether `addFrameToList` accepts the frame. -/
  frameListAccepts : List FrameEntry → FrameEntry → Bool
  /-- The value of `packetModel->isNull()`. -/
  packetModelIsNull : Bool

/-- The arguments of one call of `parseAndAddNALUnit`. The pointers `parent` and
`nalTypeName` are represented by whether they are set. -/
structure Call where
  nalID : Int
  data : QByteArray
  parent : Bool
  nalStartEndPosFile : QUint64Pair
  nalTypeName : Bool
  deriving DecidableEq, Repr

/-- The parser object together with everything the function writes to: the members
`counterAU`, `sizeCurrentAU`, `curFrameFileStartEndPos`, `activeSPSMap`, `nalUnitList`,
the frame list of the base class, the points pushed to the bitrate model, the number of
`TreeItem` roots allocated, the labels appended to their `itemData`, the error items
attached to `parent`, and the strings written through `nalTypeName`. -/
structure Parser where
  counterAU : Nat
  sizeCurrentAU : Nat
  curFrameFileStartEndPos : QUint64Pair
  activeSPSMap : List (Nat × SPS)
  nalUnitList : List SPS
  frameList : List FrameEntry
  bitratePoints : List BitrateEntry
  treeItems : Nat
  itemData : List String
  errorItems : List String
  typeNames : List String
  deriving DecidableEq, Repr

/-- The parser before the first call. -/
def Parser.initial : Parser :=
  { counterAU := 0, sizeCurrentAU := 0, curFrameFileStartEndPos := (0, 0),
    activeSPSMap := [], nalUnitList := [], frameList := [], bitratePoints := [],
    treeItems := 0, itemData := [], errorItems := [], typeNames := [] }

/-- The comparison `data.at(i) == (char)v`; undefined outside the buffer. -/
def byteIs (data : QByteArray) (i v : Nat) : Option Bool :=
  (data[i]?).map (fun b => decide (b = v))

/-- The operator `&&`: the right operand is evaluated only when the left one is true. -/
def andAlso (a b : Option Bool) : Option Bool :=
  match a with
  | none => none
  | some false => some false
  | some true => b

/-- The first condition, `data.at(0) == 0 && data.at(1) == 0 && data.at(2) == 1`. -/
def startCode3 (data : QByteArray) : Option Bool :=
  andAlso (andAlso (byteIs data 0 0) (byteIs data 1 0)) (byteIs data 2 1)

/-- The second condition,
`data.at(0) == 0 && data.at(1) == 0 && data.at(2) == 0 && data.at(3) == 1`. -/
def startCode4 (data : QByteArray) : Option Bool :=
  andAlso (andAlso (andAlso (byteIs data 0 0) (byteIs data 1 0)) (byteIs data 2 0))
    (byteIs data 3 1)

/-- The value of `skip` after lines 102 to 109. -/
def skipOf (data : QByteArray) : Option Nat :=
  match startCode3 data with
  | none => none
  | some true => some 3
  | some false =>
    match startCode4 data with
    | none => none
    | some true => some 4
    | some false => some 0

/-- The method `QByteArray::mid(pos, len)`. -/
def mid (data : QByteArray) (pos len : Nat) : QByteArray :=
  (data.drop pos).take len

/-- The method `QByteArray::mid(pos)`. -/
def midFrom (data : QByteArray) (pos : Nat) : QByteArray :=
  data.drop pos

/-- Modelled from the spec: `ParserAnnexB::addFrameToList` of the base class is not part
of the sources. The spec has it append a `FrameEntry` to the Frame Index or report a
`FrameListAppendFailure`; a failed call leaves the list as it was. -/
def addFrameToList (env : Env) (frameList : List FrameEntry) (poc : Nat)
    (fileStartEndPos : QUint64Pair) (randomAccessPoint : Bool) : Option (List FrameEntry) :=
  if env.frameListAccepts frameList ⟨poc, fileStartEndPos, randomAccessPoint⟩ then
    some (frameList ++ [⟨poc, fileStartEndPos, randomAccessPoint⟩])
  else
    none

/-- Modelled from the spec: `ReaderHelper::addErrorMessageChildItem` is not part of the
sources. The spec has the failure surfaced with a message attached to the diagnostic node;
the function result is the failure value `false`. -/
def addErrorMessageChildItem (s : Parser) (errorMessage : String) (parent : Bool) :
    Bool × Parser :=
  (false, if parent then { s with errorItems := s.errorItems ++ [errorMessage] } else s)

/-- The method `QMap::insert`: the value of an existing key is replaced. -/
def mapInsert (m : List (Nat × SPS)) (key : Nat) (value : SPS) : List (Nat × SPS) :=
  (m.filter (fun kv => kv.1 != key)) ++ [(key, value)]

/-- The method `QMap::value`: the entry of a key, if there is one. -/
def mapLookup (m : List (Nat × SPS)) (key : Nat) : Option SPS :=
  (m.find? (fun kv => kv.1 == key)).map (fun kv => kv.2)

/-- Lines 130 to 149: the handling of a sequence parameter set. The result is the parser
and the value of `specificDescription`. -/
def handleSPS (env : Env) (s : Parser) (c : Call) (nal : NalUnitVVC) (payload : QByteArray) :
    Parser × String :=
  if nal.nal_unit_type = env.SPS_NUT then
    let parsingSuccess := (env.spsParse payload).1
    let id := (env.spsParse payload).2
    let newSPS : SPS := ⟨nal, id, parsingSuccess⟩
    let s1 := { s with activeSPSMap := mapInsert s.activeSPSMap id newSPS,
                       nalUnitList := s.nalUnitList ++ [newSPS] }
    let specificDescription :=
      if parsingSuccess then " SPS_NUT ID " ++ toString id else " SPS_NUT ERR"
    let s2 :=
      if c.nalTypeName then
        { s1 with typeNames := s1.typeNames ++
            [if parsingSuccess then "SPS(" ++ toString id ++ ")" else "SPS(ERR)"] }
      else s1
    (s2, specificDescription)
  else
    (s, "")

/-- Lines 151 to 174: the access-unit bookkeeping. The flag is `false` when the function
returns early at line 166 because the frame could not be added. -/
def handleAU (env : Env) (s : Parser) (nal : NalUnitVVC) : Bool × Parser :=
  if env.isAUDelimiter nal.nal_unit_type then
    let entry : BitrateEntry := ⟨s.counterAU, s.counterAU, s.sizeCurrentAU, false⟩
    let s1 := { s with bitratePoints := s.bitratePoints ++ [entry] }
    if 0 < s1.counterAU then
      let curFrameIsRandomAccess := decide (s1.counterAU = 1)
      match addFrameToList env s1.frameList s1.counterAU s1.curFrameFileStartEndPos
          curFrameIsRandomAccess with
      | none => (false, s1)
      | some fl =>
        (true, { s1 with frameList := fl, curFrameFileStartEndPos := nal.nalStartEndPosFile,
                         sizeCurrentAU := 0, counterAU := s1.counterAU + 1 })
    else
      (true, { s1 with curFrameFileStartEndPos := nal.nalStartEndPosFile,
                       sizeCurrentAU := 0, counterAU := s1.counterAU + 1 })
  else
    (true, { s with curFrameFileStartEndPos :=
                      (s.curFrameFileStartEndPos.1, nal.nalStartEndPosFile.2) })

/-- The text `QString("NAL %1: %2").arg(nal.nal_idx).arg(nal.nal_unit_type_id)`. -/
def nalLabel (nal : NalUnitVVC) : String :=
  "NAL " ++ toString nal.nal_idx ++ ": " ++ toString nal.nal_unit_type_id

/-- Lines 101 to 113: the start code is skipped and the buffer is cut into
`nalHeaderBytes` and `payload`. -/
def splitUnit (data : QByteArray) : Option (QByteArray × QByteArray) :=
  match skipOf data with
  | none => none
  | some skip => some (mid data skip 2, midFrom data (skip + 2))

/-- Lines 119 to 123: whether a `TreeItem` root is created for the unit. -/
def hasRoot (env : Env) (c : Call) : Bool :=
  c.parent || !env.packetModelIsNull

/-- Lines 119 to 123: the allocation of the `TreeItem` root of the unit. -/
def newRoot (env : Env) (c : Call) (s : Parser) : Parser :=
  if hasRoot env c then { s with treeItems := s.treeItems + 1 } else s

/-- Lines 115 to 182: what the function does once the buffer is cut. -/
def processUnit (env : Env) (s : Parser) (c : Call) (nalHeaderBytes payload : QByteArray) :
    Bool × Parser :=
  let nalRoot : Bool := hasRoot env c
  let s0 := newRoot env c s
  match env.parse_nal_unit_header nalHeaderBytes with
  | none => (false, s0)
  | some hdr =>
    let nal : NalUnitVVC :=
      ⟨c.nalStartEndPosFile, c.nalID, hdr.nal_unit_type_id, hdr.nal_unit_type⟩
    let sd := handleSPS env s0 c nal payload
    match handleAU env sd.1 nal with
    | (false, s2) => addErrorMessageChildItem s2 "Error adding frame to frame list." c.parent
    | (true, s2) =>
      let s3 := { s2 with sizeCurrentAU := s2.sizeCurrentAU + c.data.length }
      let s4 :=
        if nalRoot then { s3 with itemData := s3.itemData ++ [nalLabel nal ++ sd.2] } else s3
      (true, s4)

/-- The function `ParserAnnexBVVC::parseAndAddNALUnit`. The result is `none` when the call
reads `data` outside its bounds, and otherwise the returned flag and the parser
afterwards. -/
def parseAndAddNALUnit (env : Env) (s : Parser) (c : Call) : Option (Bool × Parser) :=
  if c.nalID = -1 ∧ c.data.isEmpty then
    match addFrameToList env s.frameList s.counterAU s.curFrameFileStartEndPos false with
    | none => some (addErrorMessageChildItem s "Error adding frame to frame list." c.parent)
    | some fl => some (true, { s with frameList := fl })
  else
    match splitUnit c.data with
    | none => none
    | some (nalHeaderBytes, payload) => some (processUnit env s c nalHeaderBytes payload)

/-- Modelled from the spec: the upstream driver that submits the units is not part of the
sources. The spec has the units submitted one after the other, a failed unit not stopping
the ones after it. The result is `none` when one of the calls is undefined. -/
def run (env : Env) : Parser → List Call → Option Parser
  | s, [] => some s
  | s, c :: cs =>
    match parseAndAddNALUnit env s c with
    | none => none
    | some r => run env r.2 cs

/-- The end-of-stream sentinel: `nalID == -1` and no data. -/
def Call.isSentinel (c : Call) : Bool :=
  decide (c.nalID = -1) && c.data.isEmpty

/-- The header of a call that is not the sentinel, when the call gets as far as
`parse_nal_unit_header` and that succeeds. -/
def headerOf (env : Env) (c : Call) : Option NalHeader :=
  if c.isSentinel then none
  else
    match splitUnit c.data with
    | none => none
    | some hp => env.parse_nal_unit_header hp.1

/-- A unit whose header parses. -/
def wellFormed (env : Env) (c : Call) : Bool :=
  (headerOf env c).isSome

/-- A unit that reaches `parse_nal_unit_header` and is rejected there. -/
def malformed (env : Env) (c : Call) : Bool :=
  !c.isSentinel && (splitUnit c.data).isSome && (headerOf env c).isNone

/-- A unit whose header parses and for which `isAUDelimiter` holds. -/
def isBoundary (env : Env) (c : Call) : Bool :=
  match headerOf env c with
  | none => false
  | some hdr => env.isAUDelimiter hdr.nal_unit_type

/-- A unit whose header parses and for which `isAUDelimiter` does not hold. -/
def isInner (env : Env) (c : Call) : Bool :=
  match headerOf env c with
  | none => false
  | some hdr => !env.isAUDelimiter hdr.nal_unit_type

/-- An environment for the examples: a header is two bytes, the unit type is the upper
five bits of the second byte, type 20 delimits access units, type 15 is the sequence
parameter set, whose id is the low four bits of the first payload byte, and every frame
is accepted. There is no packet model, so that a unit without `parent` gets no `TreeItem`. -/
def sampleEnv : Env :=
  { parse_nal_unit_header := fun b =>
      match b with
      | [_, b1] => some ⟨b1 / 8, b1 / 8⟩
      | _ => none
    isAUDelimiter := fun t => t == 20
    SPS_NUT := 15
    spsParse := fun p =>
      match p with
      | [] => (false, 0)
      | b :: _ => (true, b % 16)
    frameListAccepts := fun _ _ => true
    packetModelIsNull := true }

/-- A unit of `n` bytes with a three-byte start code and unit type `t`. -/
def sampleUnit (nalID : Int) (t n : Nat) (pos : QUint64Pair) : Call :=
  { nalID := nalID, data := [0, 0, 1, 0, t * 8 + 1] ++ List.replicate (n - 5) 255,
    parent := false, nalStartEndPosFile := pos, nalTypeName := false }

/-- The sentinel call. -/
def sentinel : Call :=
  { nalID := -1, data := [], parent := false, nalStartEndPosFile := (0, 0),
    nalTypeName := false }

/-! ## Notions used in the statements -/

/-- The prefix that `skipOf` recognises, for a buffer of four bytes or more. -/
def expectedSkip (data : QByteArray) : Nat :=
  if data.take 3 = [0, 0, 1] then 3 else if data.take 4 = [0, 0, 0, 1] then 4 else 0

/-- The frame that a boundary unit hands to `addFrameToList`. -/
def closingEntry (s : Parser) : FrameEntry :=
  ⟨s.counterAU, s.curFrameFileStartEndPos, decide (s.counterAU = 1)⟩

/-- The point that a boundary unit pushes to the bitrate model. -/
def closingPoint (s : Parser) : BitrateEntry :=
  ⟨s.counterAU, s.counterAU, s.sizeCurrentAU, false⟩

/-- The frames that a run of boundary units appends when it starts with counter `n` and
current range `r`, all frames being accepted. -/
def closedFrames : Nat → QUint64Pair → List Call → List FrameEntry
  | _, _, [] => []
  | n, r, c :: cs => ⟨n, r, decide (n = 1)⟩ :: closedFrames (n + 1) c.nalStartEndPosFile cs

/-- The range of the last call of a stream, or `r` for the empty stream. -/
def lastRange (r : QUint64Pair) (cs : List Call) : QUint64Pair :=
  match cs.getLast? with
  | none => r
  | some c => c.nalStartEndPosFile

/-- The parser with the count of allocated `TreeItem` roots replaced. -/
def Parser.setRoots (s : Parser) (n : Nat) : Parser :=
  { s with treeItems := n }

/-- The parser without the count of allocated `TreeItem` roots: the members, the frame
list, the registry, the unit list, the bitrate points, the labels, the error items and the
type names. -/
def Parser.withoutRoots (s : Parser) : Parser :=
  s.setRoots 0

/-- The count of allocated roots after a call that started with `n` of them. -/
def rootsAfter (env : Env) (c : Call) (n : Nat) : Nat :=
  if c.isSentinel then n else if hasRoot env c then n + 1 else n

/-- A call that does not read `data` outside its bounds: the sentinel, or a unit on which
the start code test stays inside the buffer. -/
def inBounds (c : Call) : Bool :=
  c.isSentinel || (splitUnit c.data).isSome

/-- The number of boundary units of a stream that are processed to completion, that is,
for which the call returns `true`. -/
def completedBoundaries (env : Env) : Parser → List Call → Nat
  | _, [] => 0
  | s, c :: cs =>
    match parseAndAddNALUnit env s c with
    | none => 0
    | some r => (if isBoundary env c && r.1 then 1 else 0) + completedBoundaries env r.2 cs

/-- The invariant of the frame list between calls: the counters of its entries increase
strictly and all lie below the current counter. -/
def FramesBelowCounter (s : Parser) : Prop :=
  (s.frameList.map FrameEntry.poc).Pairwise (fun a b => a < b) ∧
    ∀ e ∈ s.frameList, e.poc < s.counterAU

/-- The parameter set that a call builds: the call is a unit whose header parses with the
type `SPS_NUT`; the object holds the unit, the id after `parse` and the success flag. -/
def spsOf (env : Env) (c : Call) : Option SPS :=
  match headerOf env c, splitUnit c.data with
  | some hdr, some hp =>
    if hdr.nal_unit_type = env.SPS_NUT then
      some ⟨⟨c.nalStartEndPosFile, c.nalID, hdr.nal_unit_type_id, hdr.nal_unit_type⟩,
        (env.spsParse hp.2).2, (env.spsParse hp.2).1⟩
    else none
  | _, _ => none

/-- The environment with another payload parser `SPS::parse`, everything else the same. -/
def Env.withSpsParse (env : Env) (f : QByteArray → Bool × Nat) : Env :=
  { env with spsParse := f }

/-- The example environment with a frame list that accepts no frame. -/
def rejectingEnv : Env :=
  { sampleEnv with frameListAccepts := fun _ _ => false }

/-- The value of `specificDescription` at line 180 for a unit of type `t` with the given
payload. -/
def descriptionOf (env : Env) (t : Nat) (payload : QByteArray) : String :=
  if t = env.SPS_NUT then
    if (env.spsParse payload).1 then " SPS_NUT ID " ++ toString (env.spsParse payload).2
    else " SPS_NUT ERR"
  else ""

/-- The parser with `k` more allocated `TreeItem` roots. -/
def Parser.addRoots (s : Parser) (k : Nat) : Parser :=
  s.setRoots (s.treeItems + k)

/-- The number of units of a stream that are rejected by `parse_nal_unit_header` after a
`TreeItem` root was allocated for them. -/
def rootsOfMalformed (env : Env) (cs : List Call) : Nat :=
  cs.countP (fun c => malformed env c && hasRoot env c)

/-! ## The start code -/

theorem skipOf_of_four_le (data : QByteArray) (h : 4 ≤ data.length) :
    skipOf data = some (expectedSkip data) := by
  match data, h with
  | a :: b :: c :: d :: rest, _ =>
    by_cases ha : a = 0 <;> by_cases hb : b = 0 <;> by_cases hc : c = 1 <;>
      by_cases hc0 : c = 0 <;> by_cases hd : d = 1 <;>
      simp [skipOf, startCode3, startCode4, andAlso, byteIs, expectedSkip, ha, hb, hc, hc0, hd]

theorem skipOf_le_four (data : QByteArray) (k : Nat) (h : skipOf data = some k) :
    k = 0 ∨ k = 3 ∨ k = 4 := by
  unfold skipOf at h
  split at h
  · simp at h
  · simp at h; omega
  · split at h
    · simp at h
    · simp at h; omega
    · simp at h; omega

theorem skipOf_eq_none_iff (data : QByteArray) :
    skipOf data = none ↔ data.length < 4 ∧ ∀ b ∈ data, b = 0 := by
  match data with
  | [] => simp [skipOf, startCode3, andAlso, byteIs]
  | [a] =>
    by_cases ha : a = 0 <;> simp [skipOf, startCode3, startCode4, andAlso, byteIs, ha]
  | [a, b] =>
    by_cases ha : a = 0 <;> by_cases hb : b = 0 <;>
      simp [skipOf, startCode3, startCode4, andAlso, byteIs, ha, hb]
  | [a, b, c] =>
    by_cases ha : a = 0 <;> by_cases hb : b = 0 <;> by_cases hc : c = 1 <;>
      by_cases hc0 : c = 0 <;>
      simp [skipOf, startCode3, startCode4, andAlso, byteIs, ha, hb, hc, hc0]
  | a :: b :: c :: d :: rest =>
    have h := skipOf_of_four_le (a :: b :: c :: d :: rest) (by simp)
    rw [h]
    simp

theorem splitUnit_of_skip (data : QByteArray) (k : Nat) (h : skipOf data = some k) :
    splitUnit data = some ((data.drop k).take 2, data.drop (k + 2)) := by
  simp [splitUnit, h, mid, midFrom]

/-! ## One call -/

theorem isSentinel_iff (c : Call) :
    c.isSentinel = true ↔ (c.nalID = -1 ∧ c.data.isEmpty = true) := by
  simp [Call.isSentinel]

theorem step_sentinel (env : Env) (s : Parser) (c : Call) (h : c.isSentinel = true) :
    parseAndAddNALUnit env s c =
      match addFrameToList env s.frameList s.counterAU s.curFrameFileStartEndPos false with
      | none => some (addErrorMessageChildItem s "Error adding frame to frame list." c.parent)
      | some fl => some (true, { s with frameList := fl }) := by
  have h2 := (isSentinel_iff c).1 h
  unfold parseAndAddNALUnit
  rw [if_pos h2]

theorem step_unit (env : Env) (s : Parser) (c : Call) (h : c.isSentinel = false) :
    parseAndAddNALUnit env s c =
      (splitUnit c.data).map (fun hp => processUnit env s c hp.1 hp.2) := by
  have h2 : ¬ (c.nalID = -1 ∧ c.data.isEmpty = true) := by
    intro h3
    rw [(isSentinel_iff c).2 h3] at h
    exact Bool.noConfusion h
  unfold parseAndAddNALUnit
  rw [if_neg h2]
  cases splitUnit c.data <;> rfl

theorem headerOf_some (env : Env) (c : Call) (hdr : NalHeader) (h : headerOf env c = some hdr) :
    c.isSentinel = false ∧
      ∃ hp, splitUnit c.data = some hp ∧ env.parse_nal_unit_header hp.1 = some hdr := by
  unfold headerOf at h
  cases hs : c.isSentinel
  · refine ⟨rfl, ?_⟩
    rw [hs] at h
    cases hsp : splitUnit c.data with
    | none => rw [hsp] at h; simp at h
    | some hp => rw [hsp] at h; exact ⟨hp, rfl, by simpa using h⟩
  · rw [hs] at h; simp at h

theorem malformed_iff (env : Env) (c : Call) :
    malformed env c = true ↔
      c.isSentinel = false ∧
        ∃ hp, splitUnit c.data = some hp ∧ env.parse_nal_unit_header hp.1 = none := by
  unfold malformed headerOf
  cases hs : c.isSentinel
  · cases hsp : splitUnit c.data with
    | none => simp
    | some hp => simp
  · simp

@[simp] theorem newRoot_counterAU (env : Env) (c : Call) (s : Parser) :
    (newRoot env c s).counterAU = s.counterAU := by
  unfold newRoot; split <;> rfl

@[simp] theorem newRoot_sizeCurrentAU (env : Env) (c : Call) (s : Parser) :
    (newRoot env c s).sizeCurrentAU = s.sizeCurrentAU := by
  unfold newRoot; split <;> rfl

@[simp] theorem newRoot_curFrameFileStartEndPos (env : Env) (c : Call) (s : Parser) :
    (newRoot env c s).curFrameFileStartEndPos = s.curFrameFileStartEndPos := by
  unfold newRoot; split <;> rfl

@[simp] theorem newRoot_frameList (env : Env) (c : Call) (s : Parser) :
    (newRoot env c s).frameList = s.frameList := by
  unfold newRoot; split <;> rfl

@[simp] theorem newRoot_bitratePoints (env : Env) (c : Call) (s : Parser) :
    (newRoot env c s).bitratePoints = s.bitratePoints := by
  unfold newRoot; split <;> rfl

@[simp] theorem newRoot_activeSPSMap (env : Env) (c : Call) (s : Parser) :
    (newRoot env c s).activeSPSMap = s.activeSPSMap := by
  unfold newRoot; split <;> rfl

@[simp] theorem newRoot_nalUnitList (env : Env) (c : Call) (s : Parser) :
    (newRoot env c s).nalUnitList = s.nalUnitList := by
  unfold newRoot; split <;> rfl

@[simp] theorem newRoot_itemData (env : Env) (c : Call) (s : Parser) :
    (newRoot env c s).itemData = s.itemData := by
  unfold newRoot; split <;> rfl

@[simp] theorem newRoot_errorItems (env : Env) (c : Call) (s : Parser) :
    (newRoot env c s).errorItems = s.errorItems := by
  unfold newRoot; split <;> rfl

@[simp] theorem newRoot_typeNames (env : Env) (c : Call) (s : Parser) :
    (newRoot env c s).typeNames = s.typeNames := by
  unfold newRoot; split <;> rfl

theorem handleSPS_assembler (env : Env) (s : Parser) (c : Call) (nal : NalUnitVVC)
    (payload : QByteArray) :
    (handleSPS env s c nal payload).1.counterAU = s.counterAU ∧
    (handleSPS env s c nal payload).1.sizeCurrentAU = s.sizeCurrentAU ∧
    (handleSPS env s c nal payload).1.curFrameFileStartEndPos = s.curFrameFileStartEndPos ∧
    (handleSPS env s c nal payload).1.frameList = s.frameList ∧
    (handleSPS env s c nal payload).1.bitratePoints = s.bitratePoints ∧
    (handleSPS env s c nal payload).1.treeItems = s.treeItems ∧
    (handleSPS env s c nal payload).1.itemData = s.itemData ∧
    (handleSPS env s c nal payload).1.errorItems = s.errorItems := by
  unfold handleSPS
  split
  · split <;> simp
  · simp

theorem step_malformed (env : Env) (s : Parser) (c : Call) (h : malformed env c = true) :
    parseAndAddNALUnit env s c = some (false, newRoot env c s) := by
  obtain ⟨hs, hp, hsp, hpar⟩ := (malformed_iff env c).1 h
  rw [step_unit env s c hs, hsp]
  simp [processUnit, hpar]

theorem step_inner (env : Env) (s : Parser) (c : Call) (h : isInner env c = true) :
    ∃ s2, parseAndAddNALUnit env s c = some (true, s2) ∧
      s2.counterAU = s.counterAU ∧
      s2.sizeCurrentAU = s.sizeCurrentAU + c.data.length ∧
      s2.curFrameFileStartEndPos = (s.curFrameFileStartEndPos.1, c.nalStartEndPosFile.2) ∧
      s2.frameList = s.frameList ∧
      s2.bitratePoints = s.bitratePoints := by
  unfold isInner at h
  cases hh : headerOf env c with
  | none => rw [hh] at h; simp at h
  | some hdr =>
    rw [hh] at h
    have hd : env.isAUDelimiter hdr.nal_unit_type = false := by simpa using h
    obtain ⟨hs, hp, hsp, hpar⟩ := headerOf_some env c hdr hh
    rw [step_unit env s c hs, hsp]
    simp only [Option.map_some', processUnit, hpar, handleAU, hd]
    obtain ⟨h1, h2, h3, h4, h5, _⟩ := handleSPS_assembler env (newRoot env c s) c
      ⟨c.nalStartEndPosFile, c.nalID, hdr.nal_unit_type_id, hdr.nal_unit_type⟩ hp.2
    refine ⟨_, rfl, ?_⟩
    split <;> simp_all

theorem step_boundary (env : Env) (s : Parser) (c : Call) (h : isBoundary env c = true)
    (hok : s.counterAU = 0 ∨ env.frameListAccepts s.frameList (closingEntry s) = true) :
    ∃ s2, parseAndAddNALUnit env s c = some (true, s2) ∧
      s2.counterAU = s.counterAU + 1 ∧
      s2.sizeCurrentAU = c.data.length ∧
      s2.curFrameFileStartEndPos = c.nalStartEndPosFile ∧
      s2.frameList = s.frameList ++ (if 0 < s.counterAU then [closingEntry s] else []) ∧
      s2.bitratePoints = s.bitratePoints ++ [closingPoint s] := by
  unfold isBoundary at h
  cases hh : headerOf env c with
  | none => rw [hh] at h; simp at h
  | some hdr =>
    rw [hh] at h
    have hd : env.isAUDelimiter hdr.nal_unit_type = true := by simpa using h
    obtain ⟨hs, hp, hsp, hpar⟩ := headerOf_some env c hdr hh
    rw [step_unit env s c hs, hsp]
    simp only [Option.map_some', processUnit, hpar, handleAU, hd]
    obtain ⟨h1, h2, h3, h4, h5, _⟩ := handleSPS_assembler env (newRoot env c s) c
      ⟨c.nalStartEndPosFile, c.nalID, hdr.nal_unit_type_id, hdr.nal_unit_type⟩ hp.2
    simp only [newRoot_counterAU, newRoot_sizeCurrentAU, newRoot_curFrameFileStartEndPos,
      newRoot_frameList, newRoot_bitratePoints] at h1 h2 h3 h4 h5
    simp only [h1, h2, h3, h4, h5, addFrameToList]
    rcases Nat.eq_zero_or_pos s.counterAU with h0 | hpos
    · simp only [h0, Nat.lt_irrefl, if_false]
      refine ⟨_, rfl, ?_⟩
      split <;> simp [closingPoint, h0]
    · have hacc : env.frameListAccepts s.frameList (closingEntry s) = true := by
        rcases hok with h0 | hacc
        · omega
        · exact hacc
      unfold closingEntry at hacc
      simp only [hpos, if_true, hacc]
      refine ⟨_, rfl, ?_⟩
      split <;> simp [closingPoint, closingEntry, hpos]

theorem step_boundary_rejected (env : Env) (s : Parser) (c : Call)
    (h : isBoundary env c = true) (hpos : 0 < s.counterAU)
    (hrej : env.frameListAccepts s.frameList (closingEntry s) = false) :
    ∃ s2, parseAndAddNALUnit env s c = some (false, s2) ∧
      s2.counterAU = s.counterAU ∧
      s2.sizeCurrentAU = s.sizeCurrentAU ∧
      s2.curFrameFileStartEndPos = s.curFrameFileStartEndPos ∧
      s2.frameList = s.frameList ∧
      s2.bitratePoints = s.bitratePoints ++ [closingPoint s] := by
  unfold isBoundary at h
  cases hh : headerOf env c with
  | none => rw [hh] at h; simp at h
  | some hdr =>
    rw [hh] at h
    have hd : env.isAUDelimiter hdr.nal_unit_type = true := by simpa using h
    obtain ⟨hs, hp, hsp, hpar⟩ := headerOf_some env c hdr hh
    rw [step_unit env s c hs, hsp]
    simp only [Option.map_some', processUnit, hpar, handleAU, hd]
    obtain ⟨h1, h2, h3, h4, h5, _⟩ := handleSPS_assembler env (newRoot env c s) c
      ⟨c.nalStartEndPosFile, c.nalID, hdr.nal_unit_type_id, hdr.nal_unit_type⟩ hp.2
    simp only [newRoot_counterAU, newRoot_sizeCurrentAU, newRoot_curFrameFileStartEndPos,
      newRoot_frameList, newRoot_bitratePoints] at h1 h2 h3 h4 h5
    unfold closingEntry at hrej
    simp only [h1, h2, h3, h4, h5, addFrameToList, hpos, if_true, hrej]
    refine ⟨_, rfl, ?_⟩
    simp only [addErrorMessageChildItem]
    split <;> simp [closingPoint, h1, h2, h3, h4, h5]

theorem step_sentinel_accepted (env : Env) (s : Parser) (c : Call) (h : c.isSentinel = true)
    (hacc : env.frameListAccepts s.frameList
      ⟨s.counterAU, s.curFrameFileStartEndPos, false⟩ = true) :
    parseAndAddNALUnit env s c =
      some (true, { s with frameList :=
        s.frameList ++ [⟨s.counterAU, s.curFrameFileStartEndPos, false⟩] }) := by
  rw [step_sentinel env s c h]
  simp [addFrameToList, hacc]

theorem step_sentinel_rejected (env : Env) (s : Parser) (c : Call) (h : c.isSentinel = true)
    (hrej : env.frameListAccepts s.frameList
      ⟨s.counterAU, s.curFrameFileStartEndPos, false⟩ = false) :
    parseAndAddNALUnit env s c =
      some (addErrorMessageChildItem s "Error adding frame to frame list." c.parent) := by
  rw [step_sentinel env s c h]
  simp [addFrameToList, hrej]

/-! ## Streams -/

theorem run_cons_of_step (env : Env) (s s2 : Parser) (c : Call) (cs : List Call) (b : Bool)
    (h : parseAndAddNALUnit env s c = some (b, s2)) :
    run env s (c :: cs) = run env s2 cs := by
  simp [run, h]

theorem run_append (env : Env) (s : Parser) (xs ys : List Call) :
    run env s (xs ++ ys) = (run env s xs).bind (fun s2 => run env s2 ys) := by
  induction xs generalizing s with
  | nil => simp [run]
  | cons c cs ih =>
    simp only [List.cons_append, run]
    cases parseAndAddNALUnit env s c with
    | none => simp
    | some r => simpa using ih r.2

theorem run_snoc_of_step (env : Env) (s s1 s2 : Parser) (cs : List Call) (c : Call) (b : Bool)
    (h1 : run env s cs = some s1) (h2 : parseAndAddNALUnit env s1 c = some (b, s2)) :
    run env s (cs ++ [c]) = some s2 := by
  rw [run_append, h1]
  simp [run, h2]

theorem closedFrames_length (n : Nat) (r : QUint64Pair) (cs : List Call) :
    (closedFrames n r cs).length = cs.length := by
  induction cs generalizing n r with
  | nil => rfl
  | cons c cs ih => simp [closedFrames, ih]

theorem closedFrames_poc (n : Nat) (r : QUint64Pair) (cs : List Call) :
    (closedFrames n r cs).map FrameEntry.poc = List.range' n cs.length := by
  induction cs generalizing n r with
  | nil => rfl
  | cons c cs ih => simp [closedFrames, ih, List.range'_succ]

theorem lastRange_cons (r : QUint64Pair) (c : Call) (cs : List Call) :
    lastRange r (c :: cs) = lastRange c.nalStartEndPosFile cs := by
  cases cs with
  | nil => simp [lastRange]
  | cons d ds =>
    simp only [lastRange, List.getLast?_cons_cons]
    cases h : (d :: ds).getLast? with
    | none => simp at h
    | some e => rfl

theorem run_boundaries (env : Env) (hacc : ∀ fl e, env.frameListAccepts fl e = true)
    (cs : List Call) (hb : ∀ c ∈ cs, isBoundary env c = true) (s : Parser)
    (hpos : 0 < s.counterAU) :
    ∃ s2, run env s cs = some s2 ∧
      s2.counterAU = s.counterAU + cs.length ∧
      s2.curFrameFileStartEndPos = lastRange s.curFrameFileStartEndPos cs ∧
      s2.frameList = s.frameList ++ closedFrames s.counterAU s.curFrameFileStartEndPos cs := by
  induction cs generalizing s with
  | nil => exact ⟨s, rfl, by simp, by simp [lastRange], by simp [closedFrames]⟩
  | cons c cs ih =>
    obtain ⟨s1, hstep, h1, _, h3, h4, _⟩ :=
      step_boundary env s c (hb c (List.mem_cons_self c cs)) (Or.inr (hacc _ _))
    obtain ⟨s2, hrun, g1, g2, g3⟩ :=
      ih (fun d hd => hb d (List.mem_cons_of_mem c hd)) s1 (by omega)
    refine ⟨s2, ?_, ?_, ?_, ?_⟩
    · rw [run_cons_of_step env s s1 c cs true hstep, hrun]
    · rw [g1, h1]; simp; omega
    · rw [g2, h3, lastRange_cons]
    · rw [g3, h4, h1, h3]
      simp [hpos, closedFrames, closingEntry]

theorem run_inner (env : Env) (cs : List Call) (hi : ∀ c ∈ cs, isInner env c = true)
    (s : Parser) :
    ∃ s2, run env s cs = some s2 ∧
      s2.counterAU = s.counterAU ∧
      s2.sizeCurrentAU = s.sizeCurrentAU + (cs.map (fun c => c.data.length)).sum ∧
      s2.curFrameFileStartEndPos =
        (s.curFrameFileStartEndPos.1, (lastRange s.curFrameFileStartEndPos cs).2) ∧
      s2.frameList = s.frameList ∧
      s2.bitratePoints = s.bitratePoints := by
  induction cs generalizing s with
  | nil => exact ⟨s, rfl, rfl, by simp, by simp [lastRange], rfl, rfl⟩
  | cons c cs ih =>
    obtain ⟨s1, hstep, h1, h2, h3, h4, h5⟩ :=
      step_inner env s c (hi c (List.mem_cons_self c cs))
    obtain ⟨s2, hrun, g1, g2, g3, g4, g5⟩ :=
      ih (fun d hd => hi d (List.mem_cons_of_mem c hd)) s1
    refine ⟨s2, ?_, ?_, ?_, ?_, ?_, ?_⟩
    · rw [run_cons_of_step env s s1 c cs true hstep, hrun]
    · rw [g1, h1]
    · rw [g2, h2]; simp; omega
    · rw [g3, h3, lastRange_cons]
      cases cs with
      | nil => simp [lastRange]
      | cons d ds => rw [lastRange_cons, lastRange_cons]
    · rw [g4, h4]
    · rw [g5, h5]

theorem step_boundary_points (env : Env) (s : Parser) (c : Call)
    (h : isBoundary env c = true) :
    ∃ r, parseAndAddNALUnit env s c = some r ∧
      r.2.bitratePoints = s.bitratePoints ++ [closingPoint s] := by
  by_cases hok : s.counterAU = 0 ∨ env.frameListAccepts s.frameList (closingEntry s) = true
  · obtain ⟨s2, hstep, _, _, _, _, h5⟩ := step_boundary env s c h hok
    exact ⟨_, hstep, h5⟩
  · have hpos : 0 < s.counterAU := by
      rcases Nat.eq_zero_or_pos s.counterAU with h0 | hp
      · exact absurd (Or.inl h0) hok
      · exact hp
    have hrej : env.frameListAccepts s.frameList (closingEntry s) = false := by
      cases hf : env.frameListAccepts s.frameList (closingEntry s)
      · rfl
      · exact absurd (Or.inr hf) hok
    obtain ⟨s2, hstep, _, _, _, _, h5⟩ := step_boundary_rejected env s c h hpos hrej
    exact ⟨_, hstep, h5⟩

theorem step_boundary_completed (env : Env) (s s1 : Parser) (c : Call)
    (h : isBoundary env c = true) (hstep : parseAndAddNALUnit env s c = some (true, s1)) :
    s1.counterAU = s.counterAU + 1 ∧
      s1.sizeCurrentAU = c.data.length ∧
      s1.curFrameFileStartEndPos = c.nalStartEndPosFile ∧
      s1.frameList = s.frameList ++ (if 0 < s.counterAU then [closingEntry s] else []) ∧
      s1.bitratePoints = s.bitratePoints ++ [closingPoint s] := by
  by_cases hok : s.counterAU = 0 ∨ env.frameListAccepts s.frameList (closingEntry s) = true
  · obtain ⟨s2, hstep2, h1, h2, h3, h4, h5⟩ := step_boundary env s c h hok
    rw [hstep] at hstep2
    have e : s1 = s2 := by injection hstep2 with e2; injection e2
    subst e
    exact ⟨h1, h2, h3, h4, h5⟩
  · have hpos : 0 < s.counterAU := by
      rcases Nat.eq_zero_or_pos s.counterAU with h0 | hp
      · exact absurd (Or.inl h0) hok
      · exact hp
    have hrej : env.frameListAccepts s.frameList (closingEntry s) = false := by
      cases hf : env.frameListAccepts s.frameList (closingEntry s)
      · rfl
      · exact absurd (Or.inr hf) hok
    obtain ⟨s2, hstep2, _⟩ := step_boundary_rejected env s c h hpos hrej
    rw [hstep] at hstep2
    injection hstep2 with e2
    injection e2 with e3
    exact Bool.noConfusion e3

theorem handleSPS_setRoots (env : Env) (s : Parser) (n : Nat) (c : Call) (nal : NalUnitVVC)
    (pl : QByteArray) :
    handleSPS env (s.setRoots n) c nal pl =
      ((handleSPS env s c nal pl).1.setRoots n, (handleSPS env s c nal pl).2) := by
  unfold handleSPS Parser.setRoots
  split
  · split <;> rfl
  · rfl

theorem handleAU_setRoots (env : Env) (s : Parser) (n : Nat) (nal : NalUnitVVC) :
    handleAU env (s.setRoots n) nal =
      ((handleAU env s nal).1, (handleAU env s nal).2.setRoots n) := by
  cases hd : env.isAUDelimiter nal.nal_unit_type
  · simp [handleAU, Parser.setRoots, hd]
  · by_cases hpos : 0 < s.counterAU
    · cases hacc : env.frameListAccepts s.frameList
          ⟨s.counterAU, s.curFrameFileStartEndPos, decide (s.counterAU = 1)⟩ <;>
        simp [handleAU, Parser.setRoots, addFrameToList, hd, hpos, hacc]
    · simp [handleAU, Parser.setRoots, hd, hpos]

theorem addErrorMessageChildItem_setRoots (s : Parser) (n : Nat) (m : String) (p : Bool) :
    addErrorMessageChildItem (s.setRoots n) m p =
      (false, (addErrorMessageChildItem s m p).2.setRoots n) := by
  unfold addErrorMessageChildItem Parser.setRoots
  split <;> rfl

theorem newRoot_setRoots (env : Env) (c : Call) (s : Parser) (n : Nat) :
    newRoot env c (s.setRoots n) =
      (newRoot env c s).setRoots (if hasRoot env c then n + 1 else n) := by
  unfold newRoot Parser.setRoots
  split <;> rfl

theorem processUnit_setRoots (env : Env) (s : Parser) (n : Nat) (c : Call)
    (hb pl : QByteArray) :
    processUnit env (s.setRoots n) c hb pl =
      ((processUnit env s c hb pl).1,
        (processUnit env s c hb pl).2.setRoots (if hasRoot env c then n + 1 else n)) := by
  unfold processUnit
  simp only [newRoot_setRoots]
  cases env.parse_nal_unit_header hb with
  | none => rfl
  | some hdr =>
    simp only [handleSPS_setRoots, handleAU_setRoots]
    generalize handleAU env _ _ = r
    obtain ⟨b, s2⟩ := r
    cases b
    · simp only [addErrorMessageChildItem_setRoots]
      rfl
    · simp only []
      split <;> rfl

theorem step_setRoots (env : Env) (s : Parser) (n : Nat) (c : Call) :
    parseAndAddNALUnit env (s.setRoots n) c =
      (parseAndAddNALUnit env s c).map
        (fun r => (r.1, r.2.setRoots (rootsAfter env c n))) := by
  cases hs : c.isSentinel
  · rw [step_unit env _ c hs, step_unit env _ c hs]
    cases splitUnit c.data with
    | none => rfl
    | some hp =>
      simp only [Option.map_some', processUnit_setRoots, rootsAfter, hs]
      rfl
  · rw [step_sentinel env _ c hs, step_sentinel env _ c hs]
    simp only [rootsAfter, hs, if_true]
    cases hacc : env.frameListAccepts s.frameList
        ⟨s.counterAU, s.curFrameFileStartEndPos, false⟩
    · simp [addFrameToList, Parser.setRoots, hacc, addErrorMessageChildItem]
      split <;> rfl
    · simp [addFrameToList, Parser.setRoots, hacc]

theorem setRoots_withoutRoots (s : Parser) (n : Nat) :
    (s.setRoots n).withoutRoots = s.withoutRoots := rfl

theorem run_setRoots (env : Env) (cs : List Call) (s : Parser) (n : Nat) :
    (run env (s.setRoots n) cs).map Parser.withoutRoots =
      (run env s cs).map Parser.withoutRoots := by
  induction cs generalizing s n with
  | nil => simp [run, setRoots_withoutRoots]
  | cons c cs ih =>
    simp only [run, step_setRoots]
    cases parseAndAddNALUnit env s c with
    | none => rfl
    | some r => simpa using ih r.2 _

theorem newRoot_eq_setRoots (env : Env) (c : Call) (s : Parser) :
    newRoot env c s = s.setRoots (if hasRoot env c then s.treeItems + 1 else s.treeItems) := by
  unfold newRoot Parser.setRoots
  split <;> rfl

theorem run_filter_malformed (env : Env) (cs : List Call) (s : Parser) :
    (run env s (cs.filter (fun c => !malformed env c))).map Parser.withoutRoots =
      (run env s cs).map Parser.withoutRoots := by
  induction cs generalizing s with
  | nil => rfl
  | cons c cs ih =>
    cases hm : malformed env c
    · simp only [List.filter_cons, hm, Bool.not_false, if_true, run]
      cases parseAndAddNALUnit env s c with
      | none => rfl
      | some r => exact ih r.2
    · simp only [List.filter_cons, hm, Bool.not_true, run, step_malformed env s c hm]
      rw [newRoot_eq_setRoots, run_setRoots]
      simpa using ih s

theorem isBoundary_of_sentinel (env : Env) (c : Call) (h : c.isSentinel = true) :
    isBoundary env c = false := by
  simp [isBoundary, headerOf, h]

theorem isBoundary_of_inner (env : Env) (c : Call) (h : isInner env c = true) :
    isBoundary env c = false := by
  unfold isInner at h
  unfold isBoundary
  cases hh : headerOf env c with
  | none => rfl
  | some hdr => rw [hh] at h; simpa using h

theorem isBoundary_of_malformed (env : Env) (c : Call) (h : malformed env c = true) :
    isBoundary env c = false := by
  unfold malformed at h
  unfold isBoundary
  cases hh : headerOf env c with
  | none => rfl
  | some hdr => rw [hh] at h; simp at h

theorem wellFormed_cases (env : Env) (c : Call) (h : wellFormed env c = true) :
    isInner env c = true ∨ isBoundary env c = true := by
  unfold wellFormed at h
  unfold isInner isBoundary
  cases hh : headerOf env c with
  | none => rw [hh] at h; simp at h
  | some hdr => cases env.isAUDelimiter hdr.nal_unit_type <;> simp

/-- What a call that is the sentinel or a unit with a good header does to the counter and
to the bitrate points when every frame is accepted. -/
theorem step_accepting (env : Env) (hacc : ∀ fl e, env.frameListAccepts fl e = true)
    (s : Parser) (c : Call) (hc : c.isSentinel = true ∨ wellFormed env c = true) :
    ∃ s2, parseAndAddNALUnit env s c = some (true, s2) ∧
      s2.counterAU = s.counterAU + (if isBoundary env c then 1 else 0) ∧
      s2.bitratePoints =
        s.bitratePoints ++ (if isBoundary env c then [closingPoint s] else []) := by
  rcases hc with hs | hw
  · refine ⟨_, step_sentinel_accepted env s c hs (hacc _ _), ?_, ?_⟩ <;>
      simp [isBoundary_of_sentinel env c hs]
  · rcases wellFormed_cases env c hw with hi | hb
    · obtain ⟨s2, hstep, h1, _, _, _, h5⟩ := step_inner env s c hi
      exact ⟨s2, hstep, by simp [isBoundary_of_inner env c hi, h1],
        by simp [isBoundary_of_inner env c hi, h5]⟩
    · obtain ⟨s2, hstep, h1, _, _, _, h5⟩ := step_boundary env s c hb (Or.inr (hacc _ _))
      exact ⟨s2, hstep, by simp [hb, h1], by simp [hb, h5]⟩

theorem run_accepting (env : Env) (hacc : ∀ fl e, env.frameListAccepts fl e = true)
    (cs : List Call) (hcs : ∀ c ∈ cs, c.isSentinel = true ∨ wellFormed env c = true)
    (s : Parser) :
    ∃ s2, run env s cs = some s2 ∧
      s2.counterAU = s.counterAU + cs.countP (isBoundary env) ∧
      s2.bitratePoints.length = s.bitratePoints.length + cs.countP (isBoundary env) := by
  induction cs generalizing s with
  | nil => exact ⟨s, rfl, by simp, by simp⟩
  | cons c cs ih =>
    obtain ⟨s1, hstep, h1, h2⟩ := step_accepting env hacc s c (hcs c (List.mem_cons_self c cs))
    obtain ⟨s2, hrun, g1, g2⟩ := ih (fun d hd => hcs d (List.mem_cons_of_mem c hd)) s1
    refine ⟨s2, ?_, ?_, ?_⟩
    · rw [run_cons_of_step env s s1 c cs true hstep, hrun]
    · rw [g1, h1, List.countP_cons]
      cases isBoundary env c <;> simp
      omega
    · rw [g2, h2, List.countP_cons]
      cases isBoundary env c <;> simp
      omega

theorem call_cases (env : Env) (c : Call) (h : inBounds c = true) :
    c.isSentinel = true ∨ malformed env c = true ∨ isInner env c = true ∨
      isBoundary env c = true := by
  unfold inBounds at h
  cases hs : c.isSentinel
  · right
    rw [hs] at h
    unfold malformed isInner isBoundary
    cases hh : headerOf env c with
    | none => left; simpa [hs] using h
    | some hdr => right; cases env.isAUDelimiter hdr.nal_unit_type <;> simp
  · left; rfl

/-- What a unit that stays inside its buffer does to the counter and to the frame list. -/
theorem step_unit_frames (env : Env) (s : Parser) (c : Call) (h : inBounds c = true)
    (hs : c.isSentinel = false) :
    ∃ r, parseAndAddNALUnit env s c = some r ∧
      ((r.2.counterAU = s.counterAU ∧ r.2.frameList = s.frameList ∧
          (isBoundary env c && r.1) = false) ∨
        (r.2.counterAU = s.counterAU + 1 ∧ (isBoundary env c && r.1) = true ∧
          r.2.frameList =
            s.frameList ++ (if 0 < s.counterAU then [closingEntry s] else []))) := by
  rcases call_cases env c h with h0 | hm | hi | hb
  · rw [h0] at hs; exact Bool.noConfusion hs
  · refine ⟨_, step_malformed env s c hm, Or.inl ?_⟩
    simp [isBoundary_of_malformed env c hm]
  · obtain ⟨s2, hstep, h1, _, _, h4, _⟩ := step_inner env s c hi
    exact ⟨_, hstep, Or.inl ⟨h1, h4, by simp [isBoundary_of_inner env c hi]⟩⟩
  · by_cases hok : s.counterAU = 0 ∨ env.frameListAccepts s.frameList (closingEntry s) = true
    · obtain ⟨s2, hstep, h1, _, _, h4, _⟩ := step_boundary env s c hb hok
      exact ⟨_, hstep, Or.inr ⟨h1, by simp [hb], h4⟩⟩
    · have hpos : 0 < s.counterAU := by
        rcases Nat.eq_zero_or_pos s.counterAU with h0 | hp
        · exact absurd (Or.inl h0) hok
        · exact hp
      have hrej : env.frameListAccepts s.frameList (closingEntry s) = false := by
        cases hf : env.frameListAccepts s.frameList (closingEntry s)
        · rfl
        · exact absurd (Or.inr hf) hok
      obtain ⟨s2, hstep, h1, _, _, h4, _⟩ := step_boundary_rejected env s c hb hpos hrej
      exact ⟨_, hstep, Or.inl ⟨h1, h4, by simp⟩⟩

/-- What the sentinel does to the counter and to the frame list. -/
theorem step_sentinel_frames (env : Env) (s : Parser) (c : Call) (hs : c.isSentinel = true) :
    ∃ r, parseAndAddNALUnit env s c = some r ∧
      r.2.counterAU = s.counterAU ∧
      (r.2.frameList = s.frameList ∨
        r.2.frameList =
          s.frameList ++ [⟨s.counterAU, s.curFrameFileStartEndPos, false⟩]) := by
  cases hacc : env.frameListAccepts s.frameList
      ⟨s.counterAU, s.curFrameFileStartEndPos, false⟩
  · refine ⟨_, step_sentinel_rejected env s c hs hacc, ?_, Or.inl ?_⟩ <;>
      simp only [addErrorMessageChildItem] <;> split <;> rfl
  · exact ⟨_, step_sentinel_accepted env s c hs hacc, rfl, Or.inr rfl⟩

theorem step_counter (env : Env) (s : Parser) (c : Call) (h : inBounds c = true) :
    ∃ r, parseAndAddNALUnit env s c = some r ∧
      r.2.counterAU = s.counterAU + (if isBoundary env c && r.1 then 1 else 0) := by
  cases hs : c.isSentinel
  · obtain ⟨r, hstep, hr⟩ := step_unit_frames env s c h hs
    refine ⟨r, hstep, ?_⟩
    rcases hr with ⟨h1, _, h3⟩ | ⟨h1, h2, _⟩
    · simp [h1, h3]
    · simp [h1, h2]
  · obtain ⟨r, hstep, h1, _⟩ := step_sentinel_frames env s c hs
    exact ⟨r, hstep, by simp [h1, isBoundary_of_sentinel env c hs]⟩

theorem run_counter (env : Env) (cs : List Call) (hcs : ∀ c ∈ cs, inBounds c = true)
    (s : Parser) :
    ∃ sE, run env s cs = some sE ∧
      sE.counterAU = s.counterAU + completedBoundaries env s cs := by
  induction cs generalizing s with
  | nil => exact ⟨s, rfl, rfl⟩
  | cons c cs ih =>
    obtain ⟨r, hstep, h1⟩ := step_counter env s c (hcs c (List.mem_cons_self c cs))
    obtain ⟨sE, hrun, g1⟩ := ih (fun d hd => hcs d (List.mem_cons_of_mem c hd)) r.2
    refine ⟨sE, ?_, ?_⟩
    · simp only [run, hstep, hrun]
    · simp only [completedBoundaries, hstep, g1, h1]
      omega

theorem framesBelowCounter_initial : FramesBelowCounter Parser.initial := by
  simp [FramesBelowCounter, Parser.initial]

theorem framesBelowCounter_step (env : Env) (s : Parser) (c : Call) (h : inBounds c = true)
    (hs : c.isSentinel = false) (hinv : FramesBelowCounter s) :
    ∃ r, parseAndAddNALUnit env s c = some r ∧ FramesBelowCounter r.2 := by
  obtain ⟨r, hstep, hr⟩ := step_unit_frames env s c h hs
  refine ⟨r, hstep, ?_⟩
  obtain ⟨hsorted, hbelow⟩ := hinv
  rcases hr with ⟨h1, h2, _⟩ | ⟨h1, _, h3⟩
  · unfold FramesBelowCounter
    rw [h1, h2]
    exact ⟨hsorted, hbelow⟩
  · unfold FramesBelowCounter
    rw [h1, h3]
    by_cases hpos : 0 < s.counterAU
    · simp only [hpos, if_true, List.map_append, List.map_cons, List.map_nil]
      refine ⟨?_, ?_⟩
      · rw [List.pairwise_append]
        refine ⟨hsorted, List.pairwise_singleton _ _, ?_⟩
        intro a ha b hb
        simp only [List.mem_singleton] at hb
        obtain ⟨e, he, rfl⟩ := List.mem_map.1 ha
        rw [hb]
        exact hbelow e he
      · intro e he
        rcases List.mem_append.1 he with he | he
        · exact Nat.lt_succ_of_lt (hbelow e he)
        · simp only [List.mem_singleton] at he
          rw [he]
          exact Nat.lt_succ_self _
    · simp only [hpos, if_false, List.append_nil]
      exact ⟨hsorted, fun e he => Nat.lt_succ_of_lt (hbelow e he)⟩

theorem framesBelowCounter_run (env : Env) (cs : List Call)
    (hcs : ∀ c ∈ cs, c.isSentinel = false ∧ inBounds c = true) (s : Parser)
    (hinv : FramesBelowCounter s) :
    ∃ s2, run env s cs = some s2 ∧ FramesBelowCounter s2 := by
  induction cs generalizing s with
  | nil => exact ⟨s, rfl, hinv⟩
  | cons c cs ih =>
    obtain ⟨hs, hin⟩ := hcs c (List.mem_cons_self c cs)
    obtain ⟨r, hstep, hr⟩ := framesBelowCounter_step env s c hin hs hinv
    obtain ⟨s2, hrun, h2⟩ := ih (fun d hd => hcs d (List.mem_cons_of_mem c hd)) r.2 hr
    exact ⟨s2, by simp only [run, hstep, hrun], h2⟩

theorem step_frames_prefix (env : Env) (s : Parser) (c : Call) (h : inBounds c = true) :
    ∃ r, parseAndAddNALUnit env s c = some r ∧ s.frameList <+: r.2.frameList := by
  cases hs : c.isSentinel
  · obtain ⟨r, hstep, hr⟩ := step_unit_frames env s c h hs
    refine ⟨r, hstep, ?_⟩
    rcases hr with ⟨_, h2, _⟩ | ⟨_, _, h3⟩
    · rw [h2]
    · rw [h3]; exact List.prefix_append _ _
  · obtain ⟨r, hstep, _, hr⟩ := step_sentinel_frames env s c hs
    refine ⟨r, hstep, ?_⟩
    rcases hr with h2 | h3
    · rw [h2]
    · rw [h3]; exact List.prefix_append _ _

theorem mapLookup_mapInsert_same (m : List (Nat × SPS)) (k : Nat) (v : SPS) :
    mapLookup (mapInsert m k v) k = some v := by
  unfold mapLookup mapInsert
  rw [List.find?_append]
  have h : (m.filter (fun kv => kv.1 != k)).find? (fun kv => kv.1 == k) = none := by
    rw [List.find?_eq_none]
    intro x hx
    have := (List.mem_filter.1 hx).2
    simpa using this
  rw [h]
  simp

theorem mapLookup_mapInsert_other (m : List (Nat × SPS)) (k j : Nat) (v : SPS)
    (hjk : j ≠ k) :
    mapLookup (mapInsert m k v) j = mapLookup m j := by
  have key : ∀ l : List (Nat × SPS),
      (l.filter (fun kv => kv.1 != k)).find? (fun kv => kv.1 == j) =
        l.find? (fun kv => kv.1 == j) := by
    intro l
    induction l with
    | nil => rfl
    | cons x xs ih =>
      by_cases hx : x.1 = k
      · have hxj : ¬ x.1 = j := fun e => hjk (e.symm.trans hx)
        have b1 : (x.1 != k) = false := by simp [hx]
        have b2 : (x.1 == j) = false := by simpa using hxj
        rw [List.filter_cons, List.find?_cons]
        simp only [b1, b2]
        exact ih
      · have b1 : (x.1 != k) = true := by simpa using hx
        rw [List.filter_cons]
        simp only [b1, if_true]
        rw [List.find?_cons, List.find?_cons, ih]
  unfold mapLookup mapInsert
  rw [List.find?_append, key]
  cases m.find? (fun kv => kv.1 == j) with
  | none =>
    have hkj : ¬ k = j := fun e => hjk e.symm
    simp [List.find?_cons, hkj]
  | some x => simp

theorem mapInsert_entries (m : List (Nat × SPS)) (k : Nat) (v : SPS) :
    (mapInsert m k v).filter (fun kv => kv.1 == k) = [(k, v)] := by
  unfold mapInsert
  rw [List.filter_append, List.filter_filter]
  have h : m.filter (fun a => (a.1 == k) && (a.1 != k)) = [] := by
    rw [List.filter_eq_nil_iff]
    intro a _
    by_cases ha : a.1 = k <;> simp [ha]
  rw [h]
  simp

theorem handleAU_registry (env : Env) (s : Parser) (nal : NalUnitVVC) :
    (handleAU env s nal).2.activeSPSMap = s.activeSPSMap ∧
      (handleAU env s nal).2.nalUnitList = s.nalUnitList := by
  cases hd : env.isAUDelimiter nal.nal_unit_type
  · simp [handleAU, hd]
  · by_cases hpos : 0 < s.counterAU
    · cases hacc : env.frameListAccepts s.frameList
          ⟨s.counterAU, s.curFrameFileStartEndPos, decide (s.counterAU = 1)⟩ <;>
        simp [handleAU, addFrameToList, hd, hpos, hacc]
    · simp [handleAU, hd, hpos]

theorem step_sps (env : Env) (s : Parser) (c : Call) (p : SPS) (h : spsOf env c = some p) :
    ∃ r, parseAndAddNALUnit env s c = some r ∧
      r.2.activeSPSMap = mapInsert s.activeSPSMap p.sps_seq_parameter_set_id p ∧
      r.2.nalUnitList = s.nalUnitList ++ [p] := by
  unfold spsOf at h
  cases hh : headerOf env c with
  | none => rw [hh] at h; simp at h
  | some hdr =>
    obtain ⟨hs, hp, hsp, hpar⟩ := headerOf_some env c hdr hh
    rw [hh, hsp] at h
    by_cases ht : hdr.nal_unit_type = env.SPS_NUT
    · simp only [ht, if_true, Option.some.injEq] at h
      rw [step_unit env s c hs, hsp]
      refine ⟨_, rfl, ?_⟩
      simp only [processUnit, hpar]
      obtain ⟨g1, g2⟩ := handleAU_registry env
        (handleSPS env (newRoot env c s) c
          ⟨c.nalStartEndPosFile, c.nalID, hdr.nal_unit_type_id, hdr.nal_unit_type⟩ hp.2).1
        ⟨c.nalStartEndPosFile, c.nalID, hdr.nal_unit_type_id, hdr.nal_unit_type⟩
      have k1 : (handleSPS env (newRoot env c s) c
          ⟨c.nalStartEndPosFile, c.nalID, hdr.nal_unit_type_id, hdr.nal_unit_type⟩
            hp.2).1.activeSPSMap = mapInsert s.activeSPSMap p.sps_seq_parameter_set_id p := by
        rw [← h]
        simp only [handleSPS, ht, if_true]
        split <;> simp [ht]
      have k2 : (handleSPS env (newRoot env c s) c
          ⟨c.nalStartEndPosFile, c.nalID, hdr.nal_unit_type_id, hdr.nal_unit_type⟩
            hp.2).1.nalUnitList = s.nalUnitList ++ [p] := by
        rw [← h]
        simp only [handleSPS, ht, if_true]
        split <;> simp [ht]
      rw [k1] at g1
      rw [k2] at g2
      generalize handleAU env _ _ = q at g1 g2 ⊢
      obtain ⟨b, s2⟩ := q
      cases b
      · simp only [addErrorMessageChildItem]
        split <;> exact ⟨g1, g2⟩
      · simp only []
        split <;> exact ⟨g1, g2⟩
    · simp [ht] at h

theorem spsOf_wellFormed (env : Env) (c : Call) (p : SPS) (h : spsOf env c = some p) :
    wellFormed env c = true := by
  unfold spsOf at h
  unfold wellFormed
  cases hh : headerOf env c with
  | none => rw [hh] at h; simp at h
  | some hdr => rfl

theorem isBoundary_withSpsParse (env : Env) (f : QByteArray → Bool × Nat) (c : Call) :
    isBoundary (env.withSpsParse f) c = isBoundary env c := rfl

theorem isInner_withSpsParse (env : Env) (f : QByteArray → Bool × Nat) (c : Call) :
    isInner (env.withSpsParse f) c = isInner env c := rfl

/-- The members of the assembler, the bitrate points, the frame list and the returned flag
after a unit with a good header do not depend on `SPS::parse`. -/
theorem step_withSpsParse (env : Env) (f : QByteArray → Bool × Nat) (s : Parser) (c : Call)
    (hw : wellFormed env c = true) :
    ∃ r q,
      parseAndAddNALUnit env s c = some r ∧
      parseAndAddNALUnit (env.withSpsParse f) s c = some q ∧
      r.1 = q.1 ∧
      r.2.counterAU = q.2.counterAU ∧
      r.2.sizeCurrentAU = q.2.sizeCurrentAU ∧
      r.2.curFrameFileStartEndPos = q.2.curFrameFileStartEndPos ∧
      r.2.bitratePoints = q.2.bitratePoints ∧
      r.2.frameList = q.2.frameList ∧
      (isBoundary env c = false →
        r.1 = true ∧ r.2.sizeCurrentAU = s.sizeCurrentAU + c.data.length) := by
  rcases wellFormed_cases env c hw with hi | hb
  · obtain ⟨s2, e, a1, a2, a3, a4, a5⟩ := step_inner env s c hi
    obtain ⟨s3, e3, b1, b2, b3, b4, b5⟩ := step_inner (env.withSpsParse f) s c hi
    exact ⟨_, _, e, e3, rfl, by rw [a1, b1], by rw [a2, b2], by rw [a3, b3],
      by rw [a5, b5], by rw [a4, b4], fun _ => ⟨rfl, a2⟩⟩
  · by_cases hok : s.counterAU = 0 ∨ env.frameListAccepts s.frameList (closingEntry s) = true
    · obtain ⟨s2, e, a1, a2, a3, a4, a5⟩ := step_boundary env s c hb hok
      obtain ⟨s3, e3, b1, b2, b3, b4, b5⟩ := step_boundary (env.withSpsParse f) s c hb hok
      exact ⟨_, _, e, e3, rfl, by rw [a1, b1], by rw [a2, b2], by rw [a3, b3],
        by rw [a5, b5], by rw [a4, b4], fun hn => by rw [hb] at hn; exact Bool.noConfusion hn⟩
    · have hpos : 0 < s.counterAU := by
        rcases Nat.eq_zero_or_pos s.counterAU with h0 | hp
        · exact absurd (Or.inl h0) hok
        · exact hp
      have hrej : env.frameListAccepts s.frameList (closingEntry s) = false := by
        cases hf : env.frameListAccepts s.frameList (closingEntry s)
        · rfl
        · exact absurd (Or.inr hf) hok
      obtain ⟨s2, e, a1, a2, a3, a4, a5⟩ := step_boundary_rejected env s c hb hpos hrej
      obtain ⟨s3, e3, b1, b2, b3, b4, b5⟩ :=
        step_boundary_rejected (env.withSpsParse f) s c hb hpos hrej
      exact ⟨_, _, e, e3, rfl, by rw [a1, b1], by rw [a2, b2], by rw [a3, b3],
        by rw [a5, b5], by rw [a4, b4], fun hn => by rw [hb] at hn; exact Bool.noConfusion hn⟩

theorem isInner_of_malformed (env : Env) (c : Call) (h : malformed env c = true) :
    isInner env c = false := by
  unfold malformed at h
  unfold isInner
  cases hh : headerOf env c with
  | none => rfl
  | some hdr => rw [hh] at h; simp at h

theorem lastRange_snd_congr (r q : QUint64Pair) (cs : List Call) (h : r.2 = q.2) :
    (lastRange r cs).2 = (lastRange q cs).2 := by
  cases cs with
  | nil => simpa [lastRange] using h
  | cons d ds => rw [lastRange_cons, lastRange_cons]

/-- Units that are no boundary, some of them with a malformed header: the counter and the
frame list stay, the start of the current range stays, and its end is the end of the last
unit with a good header. -/
theorem run_inside_au (env : Env) (cs : List Call)
    (hcs : ∀ c ∈ cs, isInner env c = true ∨ malformed env c = true) (s : Parser) :
    ∃ s2, run env s cs = some s2 ∧
      s2.counterAU = s.counterAU ∧
      s2.curFrameFileStartEndPos =
        (s.curFrameFileStartEndPos.1,
          (lastRange s.curFrameFileStartEndPos (cs.filter (isInner env))).2) ∧
      s2.frameList = s.frameList := by
  induction cs generalizing s with
  | nil => exact ⟨s, rfl, rfl, by simp [lastRange], rfl⟩
  | cons c cs ih =>
    rcases hcs c (List.mem_cons_self c cs) with hi | hm
    · obtain ⟨s1, hstep, h1, _, h3, h4, _⟩ := step_inner env s c hi
      obtain ⟨s2, hrun, g1, g2, g3⟩ := ih (fun d hd => hcs d (List.mem_cons_of_mem c hd)) s1
      refine ⟨s2, ?_, ?_, ?_, ?_⟩
      · rw [run_cons_of_step env s s1 c cs true hstep, hrun]
      · rw [g1, h1]
      · rw [g2, h3, List.filter_cons, if_pos hi, lastRange_cons]
        simp only [Prod.mk.injEq, true_and]
        exact lastRange_snd_congr _ _ _ rfl
      · rw [g3, h4]
    · obtain ⟨s2, hrun, g1, g2, g3⟩ :=
        ih (fun d hd => hcs d (List.mem_cons_of_mem c hd)) (newRoot env c s)
      refine ⟨s2, ?_, ?_, ?_, ?_⟩
      · rw [run_cons_of_step env s _ c cs false (step_malformed env s c hm), hrun]
      · rw [g1]; simp
      · rw [g2, List.filter_cons, isInner_of_malformed env c hm]
        simp
      · rw [g3]; simp

/-- The call that closes an access unit, a boundary unit or the sentinel in a state with a
positive counter: it appends the frame of the current counter and range, or fails and
appends nothing. -/
theorem step_closing (env : Env) (s : Parser) (c : Call)
    (hc : isBoundary env c = true ∨ c.isSentinel = true) (hpos : 0 < s.counterAU) :
    ∃ r, parseAndAddNALUnit env s c = some r ∧
      ((r.1 = true ∧ r.2.frameList = s.frameList ++
          [⟨s.counterAU, s.curFrameFileStartEndPos,
            if c.isSentinel then false else decide (s.counterAU = 1)⟩]) ∨
        (r.1 = false ∧ r.2.frameList = s.frameList)) := by
  rcases hc with hb | hs
  · have hns : c.isSentinel = false := by
      cases h : c.isSentinel
      · rfl
      · rw [isBoundary_of_sentinel env c h] at hb; exact Bool.noConfusion hb
    cases hacc : env.frameListAccepts s.frameList (closingEntry s)
    · obtain ⟨s2, e, _, _, _, a4, _⟩ := step_boundary_rejected env s c hb hpos hacc
      exact ⟨_, e, Or.inr ⟨rfl, a4⟩⟩
    · obtain ⟨s2, e, _, _, _, a4, _⟩ := step_boundary env s c hb (Or.inr hacc)
      refine ⟨_, e, Or.inl ⟨rfl, ?_⟩⟩
      rw [a4]
      simp [hpos, hns, closingEntry]
  · cases hacc : env.frameListAccepts s.frameList
        ⟨s.counterAU, s.curFrameFileStartEndPos, false⟩
    · refine ⟨_, step_sentinel_rejected env s c hs hacc, Or.inr ⟨rfl, ?_⟩⟩
      simp only [addErrorMessageChildItem]
      split <;> rfl
    · refine ⟨_, step_sentinel_accepted env s c hs hacc, Or.inl ⟨rfl, ?_⟩⟩
      simp [hs]

theorem handleSPS_description (env : Env) (s : Parser) (c : Call) (nal : NalUnitVVC)
    (payload : QByteArray) :
    (handleSPS env s c nal payload).2 = descriptionOf env nal.nal_unit_type payload := by
  unfold handleSPS descriptionOf
  split <;> rfl

theorem handleAU_itemData (env : Env) (s : Parser) (nal : NalUnitVVC) :
    (handleAU env s nal).2.itemData = s.itemData := by
  cases hd : env.isAUDelimiter nal.nal_unit_type
  · simp [handleAU, hd]
  · by_cases hpos : 0 < s.counterAU
    · cases hacc : env.frameListAccepts s.frameList
          ⟨s.counterAU, s.curFrameFileStartEndPos, decide (s.counterAU = 1)⟩ <;>
        simp [handleAU, addFrameToList, hd, hpos, hacc]
    · simp [handleAU, hd, hpos]

/-- The labels after a unit with a good header that is processed to completion. -/
theorem step_itemData (env : Env) (s s2 : Parser) (c : Call) (hdr : NalHeader)
    (hp : QByteArray × QByteArray)
    (hh : headerOf env c = some hdr) (hsp : splitUnit c.data = some hp)
    (hdone : parseAndAddNALUnit env s c = some (true, s2)) :
    s2.itemData =
      if hasRoot env c then
        s.itemData ++
          [nalLabel ⟨c.nalStartEndPosFile, c.nalID, hdr.nal_unit_type_id, hdr.nal_unit_type⟩
            ++ descriptionOf env hdr.nal_unit_type hp.2]
      else s.itemData := by
  obtain ⟨hs, hp2, hsp2, hpar⟩ := headerOf_some env c hdr hh
  rw [hsp] at hsp2
  have e : hp2 = hp := by injection hsp2 with e; exact e.symm
  subst e
  rw [step_unit env s c hs, hsp] at hdone
  simp only [Option.map_some', processUnit, hpar, Option.some.injEq] at hdone
  have hi := handleAU_itemData env
    (handleSPS env (newRoot env c s) c
      ⟨c.nalStartEndPosFile, c.nalID, hdr.nal_unit_type_id, hdr.nal_unit_type⟩ hp2.2).1
    ⟨c.nalStartEndPosFile, c.nalID, hdr.nal_unit_type_id, hdr.nal_unit_type⟩
  rw [(handleSPS_assembler env (newRoot env c s) c _ hp2.2).2.2.2.2.2.2.1,
    newRoot_itemData] at hi
  rw [handleSPS_description] at hdone
  generalize handleAU env _ _ = q at hi hdone
  obtain ⟨b, s3⟩ := q
  cases b
  · simp only [addErrorMessageChildItem, Prod.mk.injEq] at hdone
    exact Bool.noConfusion hdone.1
  · simp only [Prod.mk.injEq, true_and] at hdone
    rw [← hdone]
    simp only at hi
    split <;> simp [hi]

theorem step_boundary_rejected_labels (env : Env) (s : Parser) (c : Call)
    (h : isBoundary env c = true) (hpos : 0 < s.counterAU)
    (hrej : env.frameListAccepts s.frameList (closingEntry s) = false) :
    ∃ s2, parseAndAddNALUnit env s c = some (false, s2) ∧
      s2.counterAU = s.counterAU ∧
      s2.sizeCurrentAU = s.sizeCurrentAU ∧
      s2.curFrameFileStartEndPos = s.curFrameFileStartEndPos ∧
      s2.frameList = s.frameList ∧
      s2.bitratePoints = s.bitratePoints ++ [closingPoint s] ∧
      s2.itemData = s.itemData := by
  unfold isBoundary at h
  cases hh : headerOf env c with
  | none => rw [hh] at h; simp at h
  | some hdr =>
    rw [hh] at h
    have hd : env.isAUDelimiter hdr.nal_unit_type = true := by simpa using h
    obtain ⟨hs, hp, hsp, hpar⟩ := headerOf_some env c hdr hh
    rw [step_unit env s c hs, hsp]
    simp only [Option.map_some', processUnit, hpar, handleAU, hd]
    obtain ⟨h1, h2, h3, h4, h5, _, h7, _⟩ := handleSPS_assembler env (newRoot env c s) c
      ⟨c.nalStartEndPosFile, c.nalID, hdr.nal_unit_type_id, hdr.nal_unit_type⟩ hp.2
    simp only [newRoot_counterAU, newRoot_sizeCurrentAU, newRoot_curFrameFileStartEndPos,
      newRoot_frameList, newRoot_bitratePoints, newRoot_itemData] at h1 h2 h3 h4 h5 h7
    unfold closingEntry at hrej
    simp only [h1, h2, h3, h4, h5, addFrameToList, hpos, if_true, hrej]
    refine ⟨_, rfl, ?_⟩
    simp only [addErrorMessageChildItem]
    split <;> simp [closingPoint, h1, h2, h3, h4, h5, h7]

theorem step_sentinel_members (env : Env) (s : Parser) (c : Call)
    (hs : c.isSentinel = true) :
    ∃ r, parseAndAddNALUnit env s c = some r ∧
      r.1 = env.frameListAccepts s.frameList
        ⟨s.counterAU, s.curFrameFileStartEndPos, false⟩ ∧
      r.2.frameList =
        (if env.frameListAccepts s.frameList ⟨s.counterAU, s.curFrameFileStartEndPos, false⟩
          then s.frameList ++ [⟨s.counterAU, s.curFrameFileStartEndPos, false⟩]
          else s.frameList) ∧
      r.2.counterAU = s.counterAU ∧
      r.2.sizeCurrentAU = s.sizeCurrentAU ∧
      r.2.curFrameFileStartEndPos = s.curFrameFileStartEndPos ∧
      r.2.activeSPSMap = s.activeSPSMap ∧
      r.2.nalUnitList = s.nalUnitList ∧
      r.2.bitratePoints = s.bitratePoints ∧
      r.2.itemData = s.itemData ∧
      r.2.treeItems = s.treeItems := by
  cases hacc : env.frameListAccepts s.frameList
      ⟨s.counterAU, s.curFrameFileStartEndPos, false⟩
  · refine ⟨_, step_sentinel_rejected env s c hs hacc, ?_⟩
    simp only [addErrorMessageChildItem]
    split <;> simp
  · refine ⟨_, step_sentinel_accepted env s c hs hacc, ?_⟩
    simp

theorem rootsAfter_add (env : Env) (c : Call) (n k : Nat) :
    rootsAfter env c (n + k) = rootsAfter env c n + k := by
  unfold rootsAfter
  split
  · rfl
  · split
    · omega
    · rfl

theorem step_treeItems (env : Env) (s : Parser) (c : Call) (r : Bool × Parser)
    (h : parseAndAddNALUnit env s c = some r) :
    r.2.treeItems = rootsAfter env c s.treeItems := by
  have e := step_setRoots env s s.treeItems c
  have e2 : s.setRoots s.treeItems = s := rfl
  rw [e2, h] at e
  simp only [Option.map_some', Option.some.injEq] at e
  have e3 := congrArg (fun q : Bool × Parser => q.2.treeItems) e
  simpa [Parser.setRoots] using e3

theorem step_addRoots (env : Env) (s : Parser) (k : Nat) (c : Call) :
    parseAndAddNALUnit env (s.addRoots k) c =
      (parseAndAddNALUnit env s c).map (fun r => (r.1, r.2.addRoots k)) := by
  unfold Parser.addRoots
  rw [step_setRoots]
  cases h : parseAndAddNALUnit env s c with
  | none => rfl
  | some r =>
    simp only [Option.map_some']
    rw [rootsAfter_add, step_treeItems env s c r h]

theorem run_addRoots (env : Env) (cs : List Call) (s : Parser) (k : Nat) :
    run env (s.addRoots k) cs = (run env s cs).map (fun q => q.addRoots k) := by
  induction cs generalizing s with
  | nil => rfl
  | cons c cs ih =>
    simp only [run, step_addRoots]
    cases parseAndAddNALUnit env s c with
    | none => rfl
    | some r => simpa using ih r.2

theorem addRoots_addRoots (s : Parser) (j k : Nat) :
    (s.addRoots j).addRoots k = s.addRoots (j + k) := by
  simp [Parser.addRoots, Parser.setRoots, Nat.add_assoc]

theorem addRoots_zero (s : Parser) : s.addRoots 0 = s := rfl

theorem newRoot_eq_addRoots (env : Env) (c : Call) (s : Parser) :
    newRoot env c s = s.addRoots (if hasRoot env c then 1 else 0) := by
  unfold newRoot Parser.addRoots Parser.setRoots
  split <;> rfl

/-- A stream ends as the stream without its malformed units does, with one more root for
every malformed unit that had a root allocated. -/
theorem run_filter_malformed_roots (env : Env) (cs : List Call) (s : Parser) :
    run env s cs =
      (run env s (cs.filter (fun c => !malformed env c))).map
        (fun q => q.addRoots (rootsOfMalformed env cs)) := by
  induction cs generalizing s with
  | nil => simp [run, rootsOfMalformed, addRoots_zero]
  | cons c cs ih =>
    cases hm : malformed env c
    · have hk : rootsOfMalformed env (c :: cs) = rootsOfMalformed env cs := by
        simp [rootsOfMalformed, List.countP_cons, hm]
      simp only [List.filter_cons, hm, Bool.not_false, if_true, run, hk]
      cases parseAndAddNALUnit env s c with
      | none => rfl
      | some r => exact ih r.2
    · have hk : rootsOfMalformed env (c :: cs) =
          (if hasRoot env c then 1 else 0) + rootsOfMalformed env cs := by
        simp only [rootsOfMalformed, List.countP_cons, hm, Bool.true_and]
        cases hasRoot env c <;> simp
        omega
      simp only [List.filter_cons, hm, Bool.not_true, Bool.false_eq_true, if_false, run,
        step_malformed env s c hm, hk]
      rw [newRoot_eq_addRoots, run_addRoots, ih s]
      cases run env s (cs.filter (fun c => !malformed env c)) with
      | none => rfl
      | some q =>
        simp only [Option.map_some', addRoots_addRoots]
        rw [Nat.add_comm]

/-! ## Claims -/

/-- C1: with every frame accepted, `N ≥ 1` boundary units fed one after the other from the
initial parser, followed by the sentinel, leave a frame list of exactly `N` entries. The
first `N - 1` are appended by the boundary units and carry the counters `1, …, N - 1` in
this order, and the last one is the entry appended by the sentinel. -/
theorem boundary_units_then_sentinel (env : Env)
    (hacc : ∀ fl e, env.frameListAccepts fl e = true)
    (units : List Call) (hN : 1 ≤ units.length)
    (hb : ∀ u ∈ units, isBoundary env u = true)
    (sen : Call) (hsen : sen.isSentinel = true) :
    ∃ sB sE,
      run env Parser.initial units = some sB ∧
      parseAndAddNALUnit env sB sen = some (true, sE) ∧
      run env Parser.initial (units ++ [sen]) = some sE ∧
      sB.frameList.length = units.length - 1 ∧
      sB.frameList.map FrameEntry.poc = List.range' 1 (units.length - 1) ∧
      sE.frameList = sB.frameList ++ [⟨units.length, lastRange (0, 0) units, false⟩] ∧
      sE.frameList.length = units.length := by
  match units, hN, hb with
  | u :: us, _, hb =>
    obtain ⟨s1, hstep, h1, _, h3, h4, _⟩ :=
      step_boundary env Parser.initial u (hb u (List.mem_cons_self u us)) (Or.inl rfl)
    have hc1 : s1.counterAU = 1 := by rw [h1]; rfl
    have hf1 : s1.frameList = [] := by rw [h4]; rfl
    obtain ⟨sB, hrun, g1, g2, g3⟩ :=
      run_boundaries env hacc us (fun d hd => hb d (List.mem_cons_of_mem u hd)) s1
        (by omega)
    have hrunB : run env Parser.initial (u :: us) = some sB := by
      rw [run_cons_of_step env Parser.initial s1 u us true hstep, hrun]
    have hfB : sB.frameList = closedFrames 1 u.nalStartEndPosFile us := by
      rw [g3, hf1, hc1, h3]; rfl
    have hsenStep := step_sentinel_accepted env sB sen hsen (hacc _ _)
    refine ⟨sB, _, hrunB, hsenStep, run_snoc_of_step env _ sB _ _ sen true hrunB hsenStep,
      ?_, ?_, ?_, ?_⟩
    · simp [hfB, closedFrames_length]
    · simp [hfB, closedFrames_poc]
    · simp only [g1, g2, hc1, h3, lastRange_cons, List.length_cons]
      rw [Nat.add_comm]
    · simp [hfB, closedFrames_length]

/-- A witness of C1: three boundary units and the sentinel. -/
theorem boundary_units_then_sentinel_witness :
    ∃ sB sE,
      run sampleEnv Parser.initial
        [sampleUnit 0 20 10 (0, 9), sampleUnit 1 20 10 (10, 19), sampleUnit 2 20 10 (20, 29)]
          = some sB ∧
      parseAndAddNALUnit sampleEnv sB sentinel = some (true, sE) ∧
      run sampleEnv Parser.initial
        ([sampleUnit 0 20 10 (0, 9), sampleUnit 1 20 10 (10, 19), sampleUnit 2 20 10 (20, 29)]
          ++ [sentinel]) = some sE ∧
      sB.frameList.length = 3 - 1 ∧
      sB.frameList.map FrameEntry.poc = List.range' 1 (3 - 1) ∧
      sE.frameList = sB.frameList ++ [⟨3, (20, 29), false⟩] ∧
      sE.frameList.length = 3 :=
  boundary_units_then_sentinel sampleEnv (fun _ _ => rfl)
    [sampleUnit 0 20 10 (0, 9), sampleUnit 1 20 10 (10, 19), sampleUnit 2 20 10 (20, 29)]
    (by decide) (by decide) sentinel (by decide)

/-- C6: for a buffer of at least four bytes the number of skipped bytes is 3 when the
buffer begins with `00 00 01`, 4 when it begins with `00 00 00 01` and 0 otherwise, and the
two patterns exclude each other. The header bytes are then the (at most two, and exactly two
when that many are left) bytes at offset `skip`, and the payload is everything from offset
`skip + 2` on. -/
theorem start_code_skip_and_split (data : QByteArray) (h : 4 ≤ data.length) :
    (data.take 3 = [0, 0, 1] → skipOf data = some 3) ∧
    (data.take 4 = [0, 0, 0, 1] → skipOf data = some 4) ∧
    (data.take 3 ≠ [0, 0, 1] → data.take 4 ≠ [0, 0, 0, 1] → skipOf data = some 0) ∧
    ¬ (data.take 3 = [0, 0, 1] ∧ data.take 4 = [0, 0, 0, 1]) ∧
    ∃ skip, skipOf data = some skip ∧
      splitUnit data = some ((data.drop skip).take 2, data.drop (skip + 2)) ∧
      (skip + 2 ≤ data.length →
        ((data.drop skip).take 2).length = 2 ∧
        data = data.take skip ++ ((data.drop skip).take 2 ++ data.drop (skip + 2))) := by
  have hk := skipOf_of_four_le data h
  have hexcl : ¬ (data.take 3 = [0, 0, 1] ∧ data.take 4 = [0, 0, 0, 1]) := by
    match data, h with
    | a :: b :: c :: d :: rest, _ =>
      simp only [List.take_succ_cons, List.take_zero, List.cons.injEq, and_true]
      omega
  refine ⟨?_, ?_, ?_, hexcl, expectedSkip data, hk, splitUnit_of_skip data _ hk, ?_⟩
  · intro h3
    rw [hk, expectedSkip, if_pos h3]
  · intro h4
    have h3 : ¬ data.take 3 = [0, 0, 1] := fun h3 => hexcl ⟨h3, h4⟩
    rw [hk, expectedSkip, if_neg h3, if_pos h4]
  · intro h3 h4
    rw [hk, expectedSkip, if_neg h3, if_neg h4]
  · intro hlen
    refine ⟨?_, ?_⟩
    · simp only [List.length_take, List.length_drop]
      omega
    · rw [← List.drop_drop, List.take_append_drop, List.take_append_drop]

/-- A witness of C6: a six-byte buffer with a three-byte start code. -/
theorem start_code_skip_and_split_witness :
    4 ≤ [0, 0, 1, 64, 9, 7].length ∧
    skipOf [0, 0, 1, 64, 9, 7] = some 3 ∧
    ∃ skip, skipOf [0, 0, 1, 64, 9, 7] = some skip ∧
      splitUnit [0, 0, 1, 64, 9, 7] =
        some ((List.drop skip [0, 0, 1, 64, 9, 7]).take 2,
          List.drop (skip + 2) [0, 0, 1, 64, 9, 7]) ∧
      (skip + 2 ≤ [0, 0, 1, 64, 9, 7].length →
        ((List.drop skip [0, 0, 1, 64, 9, 7]).take 2).length = 2 ∧
        [0, 0, 1, 64, 9, 7] = List.take skip [0, 0, 1, 64, 9, 7] ++
          ((List.drop skip [0, 0, 1, 64, 9, 7]).take 2 ++
            List.drop (skip + 2) [0, 0, 1, 64, 9, 7])) :=
  ⟨by decide,
    (start_code_skip_and_split [0, 0, 1, 64, 9, 7] (by decide)).1 (by decide),
    (start_code_skip_and_split [0, 0, 1, 64, 9, 7] (by decide)).2.2.2.2⟩

/-- C2: when a boundary unit has opened an access unit and units that are no boundary
follow, all headers parsing, then the accumulated size at the moment the next boundary unit
closes the access unit, which is the size put into the bitrate point of that boundary unit,
is the sum of `data.size()` over the opening unit and the units after it. -/
theorem closed_au_size (env : Env) (s s1 : Parser) (b1 b2 : Call) (us : List Call)
    (hb1 : isBoundary env b1 = true) (hus : ∀ u ∈ us, isInner env u = true)
    (hb2 : isBoundary env b2 = true)
    (hopen : parseAndAddNALUnit env s b1 = some (true, s1)) :
    ∃ s2 r,
      run env s1 us = some s2 ∧
      s2.sizeCurrentAU = b1.data.length + (us.map (fun u => u.data.length)).sum ∧
      parseAndAddNALUnit env s2 b2 = some r ∧
      r.2.bitratePoints = s1.bitratePoints ++
        [⟨s1.counterAU, s1.counterAU,
          b1.data.length + (us.map (fun u => u.data.length)).sum, false⟩] := by
  obtain ⟨_, h2, _, _, _⟩ := step_boundary_completed env s s1 b1 hb1 hopen
  obtain ⟨s2, hrun, g1, g2, _, _, g5⟩ := run_inner env us hus s1
  obtain ⟨r, hstep, hr⟩ := step_boundary_points env s2 b2 hb2
  refine ⟨s2, r, hrun, ?_, hstep, ?_⟩
  · rw [g2, h2]
  · rw [hr, g5, closingPoint, g1, g2, h2]

/-- A witness of C2: an access unit of 50 + 30 + 20 bytes. -/
theorem closed_au_size_witness :
    ∃ s2 r,
      run sampleEnv
        { Parser.initial with
            counterAU := 1, sizeCurrentAU := 50, curFrameFileStartEndPos := (0, 49),
            bitratePoints := [⟨0, 0, 0, false⟩] }
        [sampleUnit 1 1 30 (50, 79), sampleUnit 2 1 20 (80, 99)] = some s2 ∧
      s2.sizeCurrentAU = 50 + (30 + (20 + 0)) ∧
      parseAndAddNALUnit sampleEnv s2 (sampleUnit 3 20 40 (100, 139)) = some r ∧
      r.2.bitratePoints = [⟨0, 0, 0, false⟩] ++ [⟨1, 1, 50 + (30 + (20 + 0)), false⟩] :=
  closed_au_size sampleEnv Parser.initial
    { Parser.initial with
        counterAU := 1, sizeCurrentAU := 50, curFrameFileStartEndPos := (0, 49),
        bitratePoints := [⟨0, 0, 0, false⟩] }
    (sampleUnit 0 20 50 (0, 49)) (sampleUnit 3 20 40 (100, 139))
    [sampleUnit 1 1 30 (50, 79), sampleUnit 2 1 20 (80, 99)]
    (by decide) (by decide) (by decide) (by decide)

/-- C3, the code at the failing input: one boundary unit followed by the sentinel. The
sentinel branch passes the constant `false` to `addFrameToList`, so the only entry of the
frame list has counter 1 and is not flagged as a random access point, while a boundary
unit closing the same access unit would have passed `counterAU == 1`. -/
theorem sentinel_entry_not_random_access :
    (run sampleEnv Parser.initial [sampleUnit 0 20 50 (0, 49), sentinel]).map
        (fun s => s.frameList) = some [⟨1, (0, 49), false⟩] ∧
    closingEntry
        { Parser.initial with counterAU := 1, curFrameFileStartEndPos := (0, 49) } =
      ⟨1, (0, 49), true⟩ := by
  decide

/-- C4, the claim fails: on the stream of units of 50, 30, 20 and 40 bytes, the first and
the fourth a boundary unit, followed by the sentinel, the first access unit is appended to
the frame list, and the entry appended by the sentinel is not one with counter 1 flagged
as random access. -/
theorem example_stream_counterexample :
    ∃ sE,
      run sampleEnv Parser.initial
        [sampleUnit 0 20 50 (0, 49), sampleUnit 1 1 30 (50, 79), sampleUnit 2 1 20 (80, 99),
          sampleUnit 3 20 40 (100, 139), sentinel] = some sE ∧
      ¬ ((∀ e ∈ sE.frameList, e.fileStartEndPos ≠ (0, 99)) ∧
          sE.frameList.getLast? = some ⟨1, (100, 139), true⟩) := by
  refine ⟨{ Parser.initial with
              counterAU := 2, sizeCurrentAU := 40, curFrameFileStartEndPos := (100, 139),
              frameList := [⟨1, (0, 99), true⟩, ⟨2, (100, 139), false⟩],
              bitratePoints := [⟨0, 0, 0, false⟩, ⟨1, 1, 100, false⟩] }, by decide, ?_⟩
  decide

/-- C4 as amended: on a stream of four units of 50, 30, 20 and 40 bytes whose headers
parse, the first and the fourth a boundary unit, followed by the sentinel, every frame
being accepted, the fourth unit appends the first access unit with counter 1, flagged as
random access, ranging from the start of the first to the end of the third unit; the two
boundary units push the bitrate points of sizes 0 and 100; and the sentinel appends the
second access unit with counter 2 and the range of the fourth unit, the accumulated size
being 40. -/
theorem example_stream (env : Env) (hacc : ∀ fl e, env.frameListAccepts fl e = true)
    (u1 u2 u3 u4 sen : Call)
    (h1 : isBoundary env u1 = true) (h2 : isInner env u2 = true)
    (h3 : isInner env u3 = true) (h4 : isBoundary env u4 = true)
    (hsen : sen.isSentinel = true)
    (n1 : u1.data.length = 50) (n2 : u2.data.length = 30)
    (n3 : u3.data.length = 20) (n4 : u4.data.length = 40) :
    ∃ sE,
      run env Parser.initial [u1, u2, u3, u4, sen] = some sE ∧
      sE.frameList =
        [⟨1, (u1.nalStartEndPosFile.1, u3.nalStartEndPosFile.2), true⟩,
         ⟨2, u4.nalStartEndPosFile, false⟩] ∧
      sE.bitratePoints = [⟨0, 0, 0, false⟩, ⟨1, 1, 100, false⟩] ∧
      sE.counterAU = 2 ∧
      sE.sizeCurrentAU = 40 := by
  obtain ⟨s1, e1, a1, a2, a3, a4, a5⟩ := step_boundary env Parser.initial u1 h1 (Or.inl rfl)
  obtain ⟨s2, e2, b1, b2, b3, b4, b5⟩ := step_inner env s1 u2 h2
  obtain ⟨s3, e3, c1, c2, c3, c4, c5⟩ := step_inner env s2 u3 h3
  obtain ⟨s4, e4, d1, d2, d3, d4, d5⟩ := step_boundary env s3 u4 h4 (Or.inr (hacc _ _))
  obtain ⟨s5, e5, f1, f2, f3, f4⟩ : ∃ s5, parseAndAddNALUnit env s4 sen = some (true, s5) ∧
      s5.frameList = s4.frameList ++ [⟨s4.counterAU, s4.curFrameFileStartEndPos, false⟩] ∧
      s5.bitratePoints = s4.bitratePoints ∧ s5.counterAU = s4.counterAU ∧
      s5.sizeCurrentAU = s4.sizeCurrentAU :=
    ⟨_, step_sentinel_accepted env s4 sen hsen (hacc _ _), rfl, rfl, rfl, rfl⟩
  have k3 : s3.counterAU = 1 := by rw [c1, b1, a1]; rfl
  have r3 : s3.curFrameFileStartEndPos =
      (u1.nalStartEndPosFile.1, u3.nalStartEndPosFile.2) := by rw [c3, b3, a3]
  have z3 : s3.sizeCurrentAU = 100 := by rw [c2, b2, a2, n1, n2, n3]
  have l3 : s3.frameList = [] := by rw [c4, b4, a4]; rfl
  have p3 : s3.bitratePoints = [⟨0, 0, 0, false⟩] := by rw [c5, b5, a5]; rfl
  refine ⟨s5, ?_, ?_, ?_, ?_, ?_⟩
  · simp only [run, e1, e2, e3, e4, e5]
  · simp [f1, d4, d1, d3, l3, k3, r3, closingEntry]
  · simp [f2, d5, p3, closingPoint, k3, z3]
  · simp [f3, d1, k3]
  · simp [f4, d2, n4]

/-- A witness of the amended C4 on the stream of the counterexample. -/
theorem example_stream_witness :
    ∃ sE,
      run sampleEnv Parser.initial
        [sampleUnit 0 20 50 (0, 49), sampleUnit 1 1 30 (50, 79), sampleUnit 2 1 20 (80, 99),
          sampleUnit 3 20 40 (100, 139), sentinel] = some sE ∧
      sE.frameList = [⟨1, (0, 99), true⟩, ⟨2, (100, 139), false⟩] ∧
      sE.bitratePoints = [⟨0, 0, 0, false⟩, ⟨1, 1, 100, false⟩] ∧
      sE.counterAU = 2 ∧
      sE.sizeCurrentAU = 40 :=
  example_stream sampleEnv (fun _ _ => rfl)
    (sampleUnit 0 20 50 (0, 49)) (sampleUnit 1 1 30 (50, 79)) (sampleUnit 2 1 20 (80, 99))
    (sampleUnit 3 20 40 (100, 139)) sentinel
    (by decide) (by decide) (by decide) (by decide) (by decide)
    (by decide) (by decide) (by decide) (by decide)

/-- C5, the claim fails. A unit of the one byte `00` is not the sentinel and has fewer than
two bytes, but the call on it is undefined instead of returning `false`, because the start
code test reads the byte at index 1, so a stream with it does not end as the stream without
it. And a unit with a `parent` whose header is rejected leaves the `TreeItem` root that was
allocated for it before the header was parsed, so the parser after the stream is not the
parser after the stream without it. -/
theorem malformed_unit_counterexample :
    ([0] : QByteArray).length < 2 ∧
    (⟨0, [0], false, (0, 0), false⟩ : Call).isSentinel = false ∧
    parseAndAddNALUnit sampleEnv Parser.initial ⟨0, [0], false, (0, 0), false⟩ = none ∧
    run sampleEnv Parser.initial [⟨0, [0], false, (0, 0), false⟩] ≠
      run sampleEnv Parser.initial [] ∧
    malformed sampleEnv ⟨7, [0, 0, 1, 5], true, (0, 3), false⟩ = true ∧
    run sampleEnv Parser.initial [⟨7, [0, 0, 1, 5], true, (0, 3), false⟩] =
      some { Parser.initial with treeItems := 1 } ∧
    run sampleEnv Parser.initial [⟨7, [0, 0, 1, 5], true, (0, 3), false⟩] ≠
      run sampleEnv Parser.initial
        ([⟨7, [0, 0, 1, 5], true, (0, 3), false⟩].filter
          (fun c => !malformed sampleEnv c)) := by
  decide

/-- C5 as amended: a unit that is not the sentinel, on which the start code test stays
inside the buffer and whose header is rejected by `parse_nal_unit_header`, makes the call
return `false` and leaves the counter, the accumulated size, the current range, the
registry, the unit list, the frame list, the bitrate points, the labels, the error items
and the type names as they were; all it leaves behind is the `TreeItem` root allocated for
it when there is a `parent` or a packet model. When the header parser rejects every buffer
of fewer than two bytes, this covers every such unit with fewer than two bytes after the
start code. And a stream ends in the parser in which the stream without these units ends,
with one more root for each of them that had one allocated. -/
theorem malformed_unit_is_skipped (env : Env) :
    (∀ (s : Parser) (c : Call), malformed env c = true →
      ∃ s2, parseAndAddNALUnit env s c = some (false, s2) ∧
        s2.counterAU = s.counterAU ∧
        s2.sizeCurrentAU = s.sizeCurrentAU ∧
        s2.curFrameFileStartEndPos = s.curFrameFileStartEndPos ∧
        s2.activeSPSMap = s.activeSPSMap ∧
        s2.nalUnitList = s.nalUnitList ∧
        s2.frameList = s.frameList ∧
        s2.bitratePoints = s.bitratePoints ∧
        s2.itemData = s.itemData ∧
        s2.errorItems = s.errorItems ∧
        s2.typeNames = s.typeNames ∧
        s2.treeItems = s.treeItems + (if hasRoot env c then 1 else 0)) ∧
    ((∀ b : QByteArray, b.length < 2 → env.parse_nal_unit_header b = none) →
      ∀ (c : Call) (k : Nat), c.isSentinel = false → skipOf c.data = some k →
        c.data.length < k + 2 → malformed env c = true) ∧
    (∀ (s : Parser) (cs : List Call),
      run env s cs =
        (run env s (cs.filter (fun c => !malformed env c))).map
          (fun q => q.addRoots (rootsOfMalformed env cs))) ∧
    (∀ (s : Parser) (cs : List Call),
      (run env s (cs.filter (fun c => !malformed env c))).map Parser.withoutRoots =
        (run env s cs).map Parser.withoutRoots) := by
  refine ⟨?_, ?_, ?_, ?_⟩
  · intro s c h
    refine ⟨newRoot env c s, step_malformed env s c h, ?_⟩
    simp only [newRoot_counterAU, newRoot_sizeCurrentAU, newRoot_curFrameFileStartEndPos,
      newRoot_activeSPSMap, newRoot_nalUnitList, newRoot_frameList, newRoot_bitratePoints,
      newRoot_itemData, newRoot_errorItems, newRoot_typeNames, true_and]
    unfold newRoot
    split <;> rfl
  · intro hshort c k hs hk hlen
    rw [malformed_iff]
    refine ⟨hs, _, splitUnit_of_skip c.data k hk, ?_⟩
    apply hshort
    simp only [List.length_take, List.length_drop]
    omega
  · intro s cs
    exact run_filter_malformed_roots env cs s
  · intro s cs
    exact run_filter_malformed env cs s

/-- A witness of the amended C5: a unit with a `parent` and one byte after its start code,
in the initial parser. -/
theorem malformed_unit_is_skipped_witness :
    malformed sampleEnv ⟨7, [0, 0, 1, 5], true, (0, 3), false⟩ = true ∧
    ∃ s2, parseAndAddNALUnit sampleEnv Parser.initial ⟨7, [0, 0, 1, 5], true, (0, 3), false⟩
        = some (false, s2) ∧
      s2.counterAU = Parser.initial.counterAU ∧
      s2.sizeCurrentAU = Parser.initial.sizeCurrentAU ∧
      s2.curFrameFileStartEndPos = Parser.initial.curFrameFileStartEndPos ∧
      s2.activeSPSMap = Parser.initial.activeSPSMap ∧
      s2.nalUnitList = Parser.initial.nalUnitList ∧
      s2.frameList = Parser.initial.frameList ∧
      s2.bitratePoints = Parser.initial.bitratePoints ∧
      s2.itemData = Parser.initial.itemData ∧
      s2.errorItems = Parser.initial.errorItems ∧
      s2.typeNames = Parser.initial.typeNames ∧
      s2.treeItems = Parser.initial.treeItems + 1 :=
  ⟨by decide, (malformed_unit_is_skipped sampleEnv).1 Parser.initial
    ⟨7, [0, 0, 1, 5], true, (0, 3), false⟩ (by decide)⟩

/-- C7: in a stream fed from the initial parser in which every header parses and every
frame is accepted, the number of bitrate points after any part `pre` of the stream is the
number of boundary units in it, and the call `u` after `pre` pushes exactly one point when
it is a boundary unit and none when it is another unit or the sentinel. The point has
presentation and decode time `k - 1` for the `k`-th boundary unit, which is the counter
before the call, the accumulated size of that moment as its size, and is no keyframe. -/
theorem one_bitrate_point_per_boundary (env : Env)
    (hacc : ∀ fl e, env.frameListAccepts fl e = true)
    (pre : List Call) (u : Call)
    (hpre : ∀ c ∈ pre, c.isSentinel = true ∨ wellFormed env c = true)
    (hu : u.isSentinel = true ∨ wellFormed env u = true) :
    ∃ sP sU,
      run env Parser.initial pre = some sP ∧
      parseAndAddNALUnit env sP u = some (true, sU) ∧
      run env Parser.initial (pre ++ [u]) = some sU ∧
      sP.counterAU = pre.countP (isBoundary env) ∧
      sP.bitratePoints.length = pre.countP (isBoundary env) ∧
      sU.bitratePoints = sP.bitratePoints ++
        (if isBoundary env u then
          [⟨pre.countP (isBoundary env), pre.countP (isBoundary env),
            sP.sizeCurrentAU, false⟩]
        else []) := by
  obtain ⟨sP, hrun, g1, g2⟩ := run_accepting env hacc pre hpre Parser.initial
  obtain ⟨sU, hstep, _, h2⟩ := step_accepting env hacc sP u hu
  have k : sP.counterAU = pre.countP (isBoundary env) := by
    rw [g1]; simp [Parser.initial]
  refine ⟨sP, sU, hrun, hstep, run_snoc_of_step env _ sP sU pre u true hrun hstep, k, ?_, ?_⟩
  · rw [g2]; simp [Parser.initial]
  · rw [h2, closingPoint, k]

/-- A witness of C7: the second boundary unit of a stream pushes the point `(1, 1, 100)`. -/
theorem one_bitrate_point_per_boundary_witness :
    ∃ sP sU,
      run sampleEnv Parser.initial
        [sampleUnit 0 20 50 (0, 49), sampleUnit 1 1 30 (50, 79), sampleUnit 2 1 20 (80, 99)]
          = some sP ∧
      parseAndAddNALUnit sampleEnv sP (sampleUnit 3 20 40 (100, 139)) = some (true, sU) ∧
      run sampleEnv Parser.initial
        ([sampleUnit 0 20 50 (0, 49), sampleUnit 1 1 30 (50, 79), sampleUnit 2 1 20 (80, 99)]
          ++ [sampleUnit 3 20 40 (100, 139)]) = some sU ∧
      sP.counterAU = 1 ∧
      sP.bitratePoints.length = 1 ∧
      sU.bitratePoints = sP.bitratePoints ++ [⟨1, 1, sP.sizeCurrentAU, false⟩] :=
  one_bitrate_point_per_boundary sampleEnv (fun _ _ => rfl)
    [sampleUnit 0 20 50 (0, 49), sampleUnit 1 1 30 (50, 79), sampleUnit 2 1 20 (80, 99)]
    (sampleUnit 3 20 40 (100, 139)) (by decide) (by decide)

/-- C8: the counter starts at 0; a call that stays inside its buffer adds 1 to it when it
is a boundary unit processed to completion and leaves it unchanged otherwise (a unit that
is no boundary, a unit with a malformed header, the sentinel, a boundary unit that returns
early); so after a stream the counter has grown by the number of boundary units processed
to completion, and it never decreases. -/
theorem counter_counts_boundaries (env : Env) :
    Parser.initial.counterAU = 0 ∧
    (∀ (s : Parser) (c : Call), inBounds c = true →
      ∃ r, parseAndAddNALUnit env s c = some r ∧
        r.2.counterAU = s.counterAU + (if isBoundary env c && r.1 then 1 else 0)) ∧
    (∀ (s : Parser) (cs : List Call), (∀ c ∈ cs, inBounds c = true) →
      ∃ sE, run env s cs = some sE ∧
        sE.counterAU = s.counterAU + completedBoundaries env s cs ∧
        s.counterAU ≤ sE.counterAU) := by
  refine ⟨rfl, fun s c h => step_counter env s c h, fun s cs hcs => ?_⟩
  obtain ⟨sE, hrun, h1⟩ := run_counter env cs hcs s
  exact ⟨sE, hrun, h1, by omega⟩

/-- A witness of C8: a stream of two boundary units, a unit that is no boundary, a unit
with a malformed header and the sentinel ends with the counter at 2. -/
theorem counter_counts_boundaries_witness :
    ∃ sE, run sampleEnv Parser.initial
        [sampleUnit 0 20 50 (0, 49), sampleUnit 1 1 30 (50, 79),
          ⟨2, [0, 0, 1, 5], false, (80, 83), false⟩, sampleUnit 3 20 40 (84, 123), sentinel]
        = some sE ∧
      sE.counterAU = Parser.initial.counterAU + 2 ∧
      Parser.initial.counterAU ≤ sE.counterAU :=
  (counter_counts_boundaries sampleEnv).2.2 Parser.initial
    [sampleUnit 0 20 50 (0, 49), sampleUnit 1 1 30 (50, 79),
      ⟨2, [0, 0, 1, 5], false, (80, 83), false⟩, sampleUnit 3 20 40 (84, 123), sentinel]
    (by decide)

/-- C9: after a stream of units that is followed by one sentinel, fed from the initial
parser, the counters of the entries of the frame list increase strictly in the order in
which they were appended; and a call only appends to the frame list, the entries already
there staying as they are. -/
theorem frame_counters_increase (env : Env) :
    (∀ (units : List Call) (sen : Call),
      (∀ u ∈ units, u.isSentinel = false ∧ inBounds u = true) → sen.isSentinel = true →
      ∃ sE, run env Parser.initial (units ++ [sen]) = some sE ∧
        (sE.frameList.map FrameEntry.poc).Pairwise (fun a b => a < b)) ∧
    (∀ (s : Parser) (c : Call), inBounds c = true →
      ∃ r, parseAndAddNALUnit env s c = some r ∧ s.frameList <+: r.2.frameList) := by
  refine ⟨fun units sen hunits hsen => ?_, fun s c h => step_frames_prefix env s c h⟩
  obtain ⟨sB, hrun, hsorted, hbelow⟩ :=
    framesBelowCounter_run env units hunits Parser.initial framesBelowCounter_initial
  obtain ⟨r, hstep, _, hr⟩ := step_sentinel_frames env sB sen hsen
  refine ⟨r.2, run_snoc_of_step env _ sB r.2 units sen r.1 hrun hstep, ?_⟩
  rcases hr with h2 | h3
  · rw [h2]; exact hsorted
  · rw [h3, List.map_append, List.pairwise_append]
    refine ⟨hsorted, List.pairwise_singleton _ _, ?_⟩
    intro a ha b hb
    simp only [List.map_cons, List.map_nil, List.mem_singleton] at hb
    obtain ⟨e, he, rfl⟩ := List.mem_map.1 ha
    rw [hb]
    exact hbelow e he

/-- A witness of C9: three access units and the sentinel give the counters 1, 2, 3. -/
theorem frame_counters_increase_witness :
    ∃ sE, run sampleEnv Parser.initial
        ([sampleUnit 0 20 50 (0, 49), sampleUnit 1 1 30 (50, 79),
          sampleUnit 2 20 20 (80, 99), sampleUnit 3 20 40 (100, 139)] ++ [sentinel])
        = some sE ∧
      (sE.frameList.map FrameEntry.poc).Pairwise (fun a b => a < b) :=
  (frame_counters_increase sampleEnv).1
    [sampleUnit 0 20 50 (0, 49), sampleUnit 1 1 30 (50, 79),
      sampleUnit 2 20 20 (80, 99), sampleUnit 3 20 40 (100, 139)] sentinel
    (by decide) (by decide)

/-- C10: two units that are sequence parameter sets with the same id, processed one after
the other: afterwards the registry has exactly one entry for the id and it is the second
parameter set, the lookup of every other id gives what it gave before, and the unit list
has grown by the first parameter set followed by the second. -/
theorem same_id_overwrites (env : Env) (s : Parser) (c1 c2 : Call) (p1 p2 : SPS)
    (h1 : spsOf env c1 = some p1) (h2 : spsOf env c2 = some p2)
    (hid : p1.sps_seq_parameter_set_id = p2.sps_seq_parameter_set_id) :
    ∃ r1 r2,
      parseAndAddNALUnit env s c1 = some r1 ∧
      parseAndAddNALUnit env r1.2 c2 = some r2 ∧
      mapLookup r2.2.activeSPSMap p2.sps_seq_parameter_set_id = some p2 ∧
      r2.2.activeSPSMap.filter (fun kv => kv.1 == p2.sps_seq_parameter_set_id) =
        [(p2.sps_seq_parameter_set_id, p2)] ∧
      (∀ j, j ≠ p2.sps_seq_parameter_set_id →
        mapLookup r2.2.activeSPSMap j = mapLookup s.activeSPSMap j) ∧
      r2.2.nalUnitList = s.nalUnitList ++ [p1, p2] := by
  obtain ⟨r1, e1, a1, a2⟩ := step_sps env s c1 p1 h1
  obtain ⟨r2, e2, b1, b2⟩ := step_sps env r1.2 c2 p2 h2
  refine ⟨r1, r2, e1, e2, ?_, ?_, ?_, ?_⟩
  · rw [b1]; exact mapLookup_mapInsert_same _ _ _
  · rw [b1]; exact mapInsert_entries _ _ _
  · intro j hj
    rw [b1, mapLookup_mapInsert_other _ _ _ _ hj, a1, hid,
      mapLookup_mapInsert_other _ _ _ _ hj]
  · rw [b2, a2]; simp

/-- A witness of C10: two parameter sets with id 3 after one with id 5. -/
theorem same_id_overwrites_witness :
    ∃ r1 r2,
      parseAndAddNALUnit sampleEnv
        { Parser.initial with
            activeSPSMap := [(5, ⟨⟨(0, 5), 0, 15, 15⟩, 5, true⟩)],
            nalUnitList := [⟨⟨(0, 5), 0, 15, 15⟩, 5, true⟩] }
        ⟨1, [0, 0, 1, 0, 121, 3], false, (6, 11), false⟩ = some r1 ∧
      parseAndAddNALUnit sampleEnv r1.2
        ⟨2, [0, 0, 1, 0, 121, 19, 1], false, (12, 18), false⟩ = some r2 ∧
      mapLookup r2.2.activeSPSMap 3 = some ⟨⟨(12, 18), 2, 15, 15⟩, 3, true⟩ ∧
      r2.2.activeSPSMap.filter (fun kv => kv.1 == 3) =
        [(3, ⟨⟨(12, 18), 2, 15, 15⟩, 3, true⟩)] ∧
      (∀ j, j ≠ 3 → mapLookup r2.2.activeSPSMap j =
        mapLookup [(5, ⟨⟨(0, 5), 0, 15, 15⟩, 5, true⟩)] j) ∧
      r2.2.nalUnitList = [⟨⟨(0, 5), 0, 15, 15⟩, 5, true⟩] ++
        [⟨⟨(6, 11), 1, 15, 15⟩, 3, true⟩, ⟨⟨(12, 18), 2, 15, 15⟩, 3, true⟩] :=
  same_id_overwrites sampleEnv
    { Parser.initial with
        activeSPSMap := [(5, ⟨⟨(0, 5), 0, 15, 15⟩, 5, true⟩)],
        nalUnitList := [⟨⟨(0, 5), 0, 15, 15⟩, 5, true⟩] }
    ⟨1, [0, 0, 1, 0, 121, 3], false, (6, 11), false⟩
    ⟨2, [0, 0, 1, 0, 121, 19, 1], false, (12, 18), false⟩
    ⟨⟨(6, 11), 1, 15, 15⟩, 3, true⟩ ⟨⟨(12, 18), 2, 15, 15⟩, 3, true⟩
    (by decide) (by decide) rfl

/-- C11, the claim fails: a sequence parameter set whose payload parse fails is still
entered into the registry. Here the payload is empty, the parse fails, and the registry of
the initial parser, which is empty, holds an entry afterwards. -/
theorem failed_sps_is_registered_counterexample :
    (sampleEnv.spsParse
        (midFrom (sampleUnit 0 15 5 (0, 4)).data 5)).1 = false ∧
    (parseAndAddNALUnit sampleEnv Parser.initial (sampleUnit 0 15 5 (0, 4))).map
        (fun r => r.2.activeSPSMap)
      = some [(0, ⟨⟨(0, 4), 0, 15, 15⟩, 0, false⟩)] ∧
    (parseAndAddNALUnit sampleEnv Parser.initial (sampleUnit 0 15 5 (0, 4))).map
        (fun r => r.2.activeSPSMap)
      ≠ some Parser.initial.activeSPSMap := by
  decide

/-- C11 as amended: a unit that is a sequence parameter set is entered into the registry
under the id it has after the payload parse, replacing an entry of that id, and is appended
to the unit list, both whether the payload parse succeeds or fails. -/
theorem sps_is_registered (env : Env) (s : Parser) (c : Call) (p : SPS)
    (h : spsOf env c = some p) :
    ∃ r, parseAndAddNALUnit env s c = some r ∧
      r.2.activeSPSMap = mapInsert s.activeSPSMap p.sps_seq_parameter_set_id p ∧
      mapLookup r.2.activeSPSMap p.sps_seq_parameter_set_id = some p ∧
      (∀ j, j ≠ p.sps_seq_parameter_set_id →
        mapLookup r.2.activeSPSMap j = mapLookup s.activeSPSMap j) ∧
      r.2.nalUnitList = s.nalUnitList ++ [p] := by
  obtain ⟨r, e, a1, a2⟩ := step_sps env s c p h
  refine ⟨r, e, a1, ?_, ?_, a2⟩
  · rw [a1]; exact mapLookup_mapInsert_same _ _ _
  · intro j hj
    rw [a1]; exact mapLookup_mapInsert_other _ _ _ _ hj

/-- A witness of the amended C11: a parameter set whose payload parse fails. -/
theorem sps_is_registered_witness :
    ∃ r, parseAndAddNALUnit sampleEnv Parser.initial (sampleUnit 0 15 5 (0, 4)) = some r ∧
      r.2.activeSPSMap = mapInsert Parser.initial.activeSPSMap 0
        ⟨⟨(0, 4), 0, 15, 15⟩, 0, false⟩ ∧
      mapLookup r.2.activeSPSMap 0 = some ⟨⟨(0, 4), 0, 15, 15⟩, 0, false⟩ ∧
      (∀ j, j ≠ 0 → mapLookup r.2.activeSPSMap j =
        mapLookup Parser.initial.activeSPSMap j) ∧
      r.2.nalUnitList = Parser.initial.nalUnitList ++ [⟨⟨(0, 4), 0, 15, 15⟩, 0, false⟩] :=
  sps_is_registered sampleEnv Parser.initial (sampleUnit 0 15 5 (0, 4))
    ⟨⟨(0, 4), 0, 15, 15⟩, 0, false⟩ (by decide)

/-- C12, the code at the failing input: the sentinel in the initial parser. The sentinel
branch has no test of the counter, so a frame with counter 0 is appended although no
access unit was opened, while a boundary unit in the same state appends nothing. -/
theorem sentinel_appends_without_open_au :
    (run sampleEnv Parser.initial [sentinel]).map (fun s => (s.counterAU, s.frameList))
      = some (0, [⟨0, (0, 0), false⟩]) ∧
    (run sampleEnv Parser.initial [sampleUnit 0 20 10 (0, 9)]).map (fun s => s.frameList)
      = some [] := by
  decide

/-- C13, the code at the failing inputs: on the empty buffer, on `00 00` and on `00 00 00`
the start code test reads the bytes at index 0, 2 and 3, which lie outside the buffer, so
the prefix length is undefined and so is the call. -/
theorem start_code_test_leaves_short_buffer :
    byteIs [] 0 0 = none ∧ skipOf [] = none ∧
    byteIs [0, 0] 2 1 = none ∧ skipOf [0, 0] = none ∧
    byteIs [0, 0, 0] 3 1 = none ∧ skipOf [0, 0, 0] = none ∧
    parseAndAddNALUnit sampleEnv Parser.initial ⟨0, [], false, (0, 0), false⟩ = none ∧
    parseAndAddNALUnit sampleEnv Parser.initial ⟨0, [0, 0], false, (0, 1), false⟩ = none ∧
    parseAndAddNALUnit sampleEnv Parser.initial ⟨0, [0, 0, 0], false, (0, 2), false⟩
      = none := by
  decide

/-- C14: for a unit that is a sequence parameter set with a good header, the counter, the
accumulated size, the current range, the bitrate points, the frame list and the returned
flag after the call are the same for every behaviour of the payload parser, so the same
whether the payload parse succeeds or fails; and when the unit is no boundary unit the call
succeeds and adds the size of the unit to the accumulated size. -/
theorem sps_parse_result_leaves_assembly (env : Env) (f : QByteArray → Bool × Nat)
    (s : Parser) (c : Call) (p : SPS) (h : spsOf env c = some p) :
    ∃ r q,
      parseAndAddNALUnit env s c = some r ∧
      parseAndAddNALUnit (env.withSpsParse f) s c = some q ∧
      r.1 = q.1 ∧
      r.2.counterAU = q.2.counterAU ∧
      r.2.sizeCurrentAU = q.2.sizeCurrentAU ∧
      r.2.curFrameFileStartEndPos = q.2.curFrameFileStartEndPos ∧
      r.2.bitratePoints = q.2.bitratePoints ∧
      r.2.frameList = q.2.frameList ∧
      (isBoundary env c = false →
        r.1 = true ∧ r.2.sizeCurrentAU = s.sizeCurrentAU + c.data.length) :=
  step_withSpsParse env f s c (spsOf_wellFormed env c p h)

/-- A witness of C14: a parameter set whose payload parses, against a parser that fails. -/
theorem sps_parse_result_leaves_assembly_witness :
    ∃ r q,
      parseAndAddNALUnit sampleEnv Parser.initial (sampleUnit 0 15 9 (0, 8)) = some r ∧
      parseAndAddNALUnit (sampleEnv.withSpsParse (fun _ => (false, 0))) Parser.initial
        (sampleUnit 0 15 9 (0, 8)) = some q ∧
      r.1 = q.1 ∧
      r.2.counterAU = q.2.counterAU ∧
      r.2.sizeCurrentAU = q.2.sizeCurrentAU ∧
      r.2.curFrameFileStartEndPos = q.2.curFrameFileStartEndPos ∧
      r.2.bitratePoints = q.2.bitratePoints ∧
      r.2.frameList = q.2.frameList ∧
      (isBoundary sampleEnv (sampleUnit 0 15 9 (0, 8)) = false →
        r.1 = true ∧ r.2.sizeCurrentAU =
          Parser.initial.sizeCurrentAU + (sampleUnit 0 15 9 (0, 8)).data.length) :=
  sps_parse_result_leaves_assembly sampleEnv (fun _ => (false, 0)) Parser.initial
    (sampleUnit 0 15 9 (0, 8)) ⟨⟨(0, 8), 0, 15, 15⟩, 15, true⟩ (by decide)

/-- C15: an access unit is opened by a boundary unit `b1` that completes, units that are
no boundary follow (some perhaps with a malformed header), and a boundary unit or the
sentinel closes it. The frame that the closing call appends, if it appends one, starts
where `b1` starts and ends where the last unit with a good header ends, which is `b1`
itself when no such unit followed. And a unit `v` that is no boundary keeps the start of
the current range and moves its end to its own end. -/
theorem frame_range_of_access_unit (env : Env) (s s1 t : Parser) (b1 cl v : Call)
    (us : List Call)
    (hb1 : isBoundary env b1 = true)
    (hopen : parseAndAddNALUnit env s b1 = some (true, s1))
    (hus : ∀ u ∈ us, isInner env u = true ∨ malformed env u = true)
    (hcl : isBoundary env cl = true ∨ cl.isSentinel = true)
    (hv : isInner env v = true) :
    (∃ s2 r,
      run env s1 us = some s2 ∧
      parseAndAddNALUnit env s2 cl = some r ∧
      ((r.1 = true ∧ r.2.frameList = s2.frameList ++
          [⟨s1.counterAU,
            (b1.nalStartEndPosFile.1,
              (lastRange b1.nalStartEndPosFile (us.filter (isInner env))).2),
            if cl.isSentinel then false else decide (s1.counterAU = 1)⟩]) ∨
        (r.1 = false ∧ r.2.frameList = s2.frameList))) ∧
    (∃ t2, parseAndAddNALUnit env t v = some (true, t2) ∧
      t2.curFrameFileStartEndPos =
        (t.curFrameFileStartEndPos.1, v.nalStartEndPosFile.2)) := by
  obtain ⟨a1, _, a3, _, _⟩ := step_boundary_completed env s s1 b1 hb1 hopen
  obtain ⟨s2, hrun, g1, g2, _⟩ := run_inside_au env us hus s1
  obtain ⟨r, e, hr⟩ := step_closing env s2 cl hcl (by rw [g1, a1]; exact Nat.succ_pos _)
  obtain ⟨t2, et, _, _, k3, _, _⟩ := step_inner env t v hv
  refine ⟨⟨s2, r, hrun, e, ?_⟩, ⟨t2, et, k3⟩⟩
  rw [g1, g2, a3] at hr
  exact hr

/-- A witness of C15: the access unit of the units at 0..49, 50..79 and 80..99, closed by
a boundary unit. -/
theorem frame_range_of_access_unit_witness :
    (∃ s2 r,
      run sampleEnv
        { Parser.initial with
            counterAU := 1, sizeCurrentAU := 50, curFrameFileStartEndPos := (0, 49),
            bitratePoints := [⟨0, 0, 0, false⟩] }
        [sampleUnit 1 1 30 (50, 79), sampleUnit 2 1 20 (80, 99)] = some s2 ∧
      parseAndAddNALUnit sampleEnv s2 (sampleUnit 3 20 40 (100, 139)) = some r ∧
      ((r.1 = true ∧ r.2.frameList = s2.frameList ++ [⟨1, (0, 99), true⟩]) ∨
        (r.1 = false ∧ r.2.frameList = s2.frameList))) ∧
    (∃ t2, parseAndAddNALUnit sampleEnv
        { Parser.initial with counterAU := 1, curFrameFileStartEndPos := (0, 49) }
        (sampleUnit 1 1 30 (50, 79)) = some (true, t2) ∧
      t2.curFrameFileStartEndPos = (0, 79)) :=
  frame_range_of_access_unit sampleEnv Parser.initial
    { Parser.initial with
        counterAU := 1, sizeCurrentAU := 50, curFrameFileStartEndPos := (0, 49),
        bitratePoints := [⟨0, 0, 0, false⟩] }
    { Parser.initial with counterAU := 1, curFrameFileStartEndPos := (0, 49) }
    (sampleUnit 0 20 50 (0, 49)) (sampleUnit 3 20 40 (100, 139))
    (sampleUnit 1 1 30 (50, 79))
    [sampleUnit 1 1 30 (50, 79), sampleUnit 2 1 20 (80, 99)]
    (by decide) (by decide) (by decide) (by decide) (by decide)

/-- C16: a unit that is not the sentinel, whose header parses, that has a `TreeItem` root
and is processed to completion gets exactly one label, the text `NAL`, the sequence index,
a colon and the raw type code, followed by ` SPS_NUT ID` and the id for a sequence
parameter set whose payload parsed, by ` SPS_NUT ERR` for one whose payload did not parse,
and by nothing for a unit of another type. -/
theorem label_of_unit (env : Env) (s s2 : Parser) (c : Call) (hdr : NalHeader)
    (hp : QByteArray × QByteArray)
    (hh : headerOf env c = some hdr) (hsp : splitUnit c.data = some hp)
    (hroot : hasRoot env c = true)
    (hdone : parseAndAddNALUnit env s c = some (true, s2)) :
    s2.itemData = s.itemData ++
      ["NAL " ++ toString c.nalID ++ ": " ++ toString hdr.nal_unit_type_id ++
        (if hdr.nal_unit_type = env.SPS_NUT then
          if (env.spsParse hp.2).1 then " SPS_NUT ID " ++ toString (env.spsParse hp.2).2
          else " SPS_NUT ERR"
        else "")] := by
  rw [step_itemData env s s2 c hdr hp hh hsp hdone, if_pos hroot]
  rfl

/-- A witness of C16: a sequence parameter set with id 3 as unit 1. -/
theorem label_of_unit_witness :
    parseAndAddNALUnit sampleEnv Parser.initial
        ⟨1, [0, 0, 1, 0, 121, 3], true, (6, 11), false⟩ =
      some (true, { Parser.initial with
          sizeCurrentAU := 6, curFrameFileStartEndPos := (0, 11),
          activeSPSMap := [(3, ⟨⟨(6, 11), 1, 15, 15⟩, 3, true⟩)],
          nalUnitList := [⟨⟨(6, 11), 1, 15, 15⟩, 3, true⟩],
          treeItems := 1, itemData := ["NAL 1: 15 SPS_NUT ID 3"] }) ∧
    ({ Parser.initial with
          sizeCurrentAU := 6, curFrameFileStartEndPos := (0, 11),
          activeSPSMap := [(3, ⟨⟨(6, 11), 1, 15, 15⟩, 3, true⟩)],
          nalUnitList := [⟨⟨(6, 11), 1, 15, 15⟩, 3, true⟩],
          treeItems := 1, itemData := ["NAL 1: 15 SPS_NUT ID 3"] } : Parser).itemData =
      Parser.initial.itemData ++ ["NAL 1: 15 SPS_NUT ID 3"] :=
  ⟨by decide,
    label_of_unit sampleEnv Parser.initial
      { Parser.initial with
          sizeCurrentAU := 6, curFrameFileStartEndPos := (0, 11),
          activeSPSMap := [(3, ⟨⟨(6, 11), 1, 15, 15⟩, 3, true⟩)],
          nalUnitList := [⟨⟨(6, 11), 1, 15, 15⟩, 3, true⟩],
          treeItems := 1, itemData := ["NAL 1: 15 SPS_NUT ID 3"] }
      ⟨1, [0, 0, 1, 0, 121, 3], true, (6, 11), false⟩ ⟨15, 15⟩ ([0, 121], [3])
      (by decide) (by decide) (by decide) (by decide)⟩

/-- C17: units that are no boundary, then the first boundary unit of the stream, fed
from the initial parser. The boundary unit pushes one bitrate point with both times 0 and
the sum of the sizes of the units before it as its size, appends no frame, and starts the
accumulated size afresh with its own size, so that the point of the next boundary unit
counts the bytes from the first boundary unit on only. -/
theorem first_boundary_point (env : Env) (us vs : List Call) (b b2 : Call)
    (hus : ∀ u ∈ us, isInner env u = true) (hb : isBoundary env b = true)
    (hvs : ∀ v ∈ vs, isInner env v = true) (hb2 : isBoundary env b2 = true) :
    ∃ s1 s2 s3 r,
      run env Parser.initial us = some s1 ∧
      s1.counterAU = 0 ∧
      parseAndAddNALUnit env s1 b = some (true, s2) ∧
      s2.bitratePoints = [⟨0, 0, (us.map (fun u => u.data.length)).sum, false⟩] ∧
      s2.frameList = [] ∧
      s2.counterAU = 1 ∧
      s2.sizeCurrentAU = b.data.length ∧
      run env s2 vs = some s3 ∧
      parseAndAddNALUnit env s3 b2 = some r ∧
      r.2.bitratePoints =
        [⟨0, 0, (us.map (fun u => u.data.length)).sum, false⟩,
         ⟨1, 1, b.data.length + (vs.map (fun v => v.data.length)).sum, false⟩] := by
  obtain ⟨s1, hrun1, a1, a2, _, a4, a5⟩ := run_inner env us hus Parser.initial
  have k1 : s1.counterAU = 0 := by rw [a1]; rfl
  obtain ⟨s2, e2, b1, b2', _, b4, b5⟩ := step_boundary env s1 b hb (Or.inl k1)
  obtain ⟨s3, hrun3, c1, c2, _, _, c5⟩ := run_inner env vs hvs s2
  obtain ⟨r, e4, d5⟩ := step_boundary_points env s3 b2 hb2
  have p2 : s2.bitratePoints = [⟨0, 0, (us.map (fun u => u.data.length)).sum, false⟩] := by
    rw [b5, a5, closingPoint, k1, a2]
    simp [Parser.initial]
  refine ⟨s1, s2, s3, r, hrun1, k1, e2, p2, ?_, ?_, b2', hrun3, e4, ?_⟩
  · rw [b4, a4, k1]; rfl
  · rw [b1, k1]
  · rw [d5, c5, p2, closingPoint, c1, b1, k1, c2, b2']
    rfl

/-- A witness of C17: two units of 7 and 9 bytes before the first boundary unit. -/
theorem first_boundary_point_witness :
    ∃ s1 s2 s3 r,
      run sampleEnv Parser.initial [sampleUnit 0 1 7 (0, 6), sampleUnit 1 1 9 (7, 15)]
        = some s1 ∧
      s1.counterAU = 0 ∧
      parseAndAddNALUnit sampleEnv s1 (sampleUnit 2 20 50 (16, 65)) = some (true, s2) ∧
      s2.bitratePoints = [⟨0, 0, 7 + (9 + 0), false⟩] ∧
      s2.frameList = [] ∧
      s2.counterAU = 1 ∧
      s2.sizeCurrentAU = 50 ∧
      run sampleEnv s2 [sampleUnit 3 1 30 (66, 95)] = some s3 ∧
      parseAndAddNALUnit sampleEnv s3 (sampleUnit 4 20 40 (96, 135)) = some r ∧
      r.2.bitratePoints = [⟨0, 0, 7 + (9 + 0), false⟩, ⟨1, 1, 50 + (30 + 0), false⟩] :=
  first_boundary_point sampleEnv [sampleUnit 0 1 7 (0, 6), sampleUnit 1 1 9 (7, 15)]
    [sampleUnit 3 1 30 (66, 95)] (sampleUnit 2 20 50 (16, 65))
    (sampleUnit 4 20 40 (96, 135)) (by decide) (by decide) (by decide) (by decide)

/-- C18: a call is the sentinel exactly when `nalID` is -1 and the buffer is empty. Such a
call makes one call of `addFrameToList` with the current counter, the current range and
the flag `false`, returns what that call returns, and leaves the counter, the accumulated
size, the current range, the registry, the unit list, the bitrate points and the labels as
they were. A call that is not the sentinel is processed as a unit. -/
theorem sentinel_call (env : Env) :
    (∀ c : Call, c.isSentinel = true ↔ (c.nalID = -1 ∧ c.data = [])) ∧
    (∀ (s : Parser) (c : Call), c.isSentinel = true →
      (parseAndAddNALUnit env s c =
        match addFrameToList env s.frameList s.counterAU s.curFrameFileStartEndPos false with
        | none =>
          some (addErrorMessageChildItem s "Error adding frame to frame list." c.parent)
        | some fl => some (true, { s with frameList := fl })) ∧
      ∃ r, parseAndAddNALUnit env s c = some r ∧
        r.1 = env.frameListAccepts s.frameList
          ⟨s.counterAU, s.curFrameFileStartEndPos, false⟩ ∧
        r.2.frameList =
          (if env.frameListAccepts s.frameList
              ⟨s.counterAU, s.curFrameFileStartEndPos, false⟩
            then s.frameList ++ [⟨s.counterAU, s.curFrameFileStartEndPos, false⟩]
            else s.frameList) ∧
        r.2.counterAU = s.counterAU ∧
        r.2.sizeCurrentAU = s.sizeCurrentAU ∧
        r.2.curFrameFileStartEndPos = s.curFrameFileStartEndPos ∧
        r.2.activeSPSMap = s.activeSPSMap ∧
        r.2.nalUnitList = s.nalUnitList ∧
        r.2.bitratePoints = s.bitratePoints ∧
        r.2.itemData = s.itemData ∧
        r.2.treeItems = s.treeItems) ∧
    (∀ (s : Parser) (c : Call), c.isSentinel = false →
      parseAndAddNALUnit env s c =
        (splitUnit c.data).map (fun hp => processUnit env s c hp.1 hp.2)) := by
  refine ⟨fun c => ?_, fun s c hs => ⟨step_sentinel env s c hs, step_sentinel_members env s c hs⟩,
    fun s c hs => step_unit env s c hs⟩
  rw [isSentinel_iff]
  simp [List.isEmpty_iff]

/-- A witness of C18: the sentinel after an access unit of 40 bytes. -/
theorem sentinel_call_witness :
    ∃ r, parseAndAddNALUnit sampleEnv
        { Parser.initial with
            counterAU := 2, sizeCurrentAU := 40, curFrameFileStartEndPos := (100, 139),
            frameList := [⟨1, (0, 99), true⟩],
            bitratePoints := [⟨0, 0, 0, false⟩, ⟨1, 1, 100, false⟩] }
        sentinel = some r ∧
      r.1 = true ∧
      r.2.frameList = [⟨1, (0, 99), true⟩, ⟨2, (100, 139), false⟩] ∧
      r.2.counterAU = 2 ∧
      r.2.sizeCurrentAU = 40 ∧
      r.2.curFrameFileStartEndPos = (100, 139) ∧
      r.2.activeSPSMap = [] ∧
      r.2.nalUnitList = [] ∧
      r.2.bitratePoints = [⟨0, 0, 0, false⟩, ⟨1, 1, 100, false⟩] ∧
      r.2.itemData = [] ∧
      r.2.treeItems = 0 :=
  ((sentinel_call sampleEnv).2.1
    { Parser.initial with
        counterAU := 2, sizeCurrentAU := 40, curFrameFileStartEndPos := (100, 139),
        frameList := [⟨1, (0, 99), true⟩],
        bitratePoints := [⟨0, 0, 0, false⟩, ⟨1, 1, 100, false⟩] }
    sentinel (by decide)).2

/-- C19: a boundary unit in a state with a positive counter whose frame is not accepted:
the call returns `false` early; the counter, the accumulated size, the current range and
the frame list keep their values, the size of the unit is not added and no label is
appended, but the bitrate point of the boundary has been pushed. -/
theorem rejected_boundary_returns_early (env : Env) (s : Parser) (c : Call)
    (hb : isBoundary env c = true) (hpos : 0 < s.counterAU)
    (hrej : env.frameListAccepts s.frameList
      ⟨s.counterAU, s.curFrameFileStartEndPos, decide (s.counterAU = 1)⟩ = false) :
    ∃ s2, parseAndAddNALUnit env s c = some (false, s2) ∧
      s2.counterAU = s.counterAU ∧
      s2.sizeCurrentAU = s.sizeCurrentAU ∧
      s2.curFrameFileStartEndPos = s.curFrameFileStartEndPos ∧
      s2.frameList = s.frameList ∧
      s2.bitratePoints =
        s.bitratePoints ++ [⟨s.counterAU, s.counterAU, s.sizeCurrentAU, false⟩] ∧
      s2.itemData = s.itemData :=
  step_boundary_rejected_labels env s c hb hpos hrej

/-- A witness of C19: the second boundary unit of a stream, with a frame list that accepts
no frame. -/
theorem rejected_boundary_returns_early_witness :
    ∃ s2, parseAndAddNALUnit rejectingEnv
        { Parser.initial with
            counterAU := 1, sizeCurrentAU := 100, curFrameFileStartEndPos := (0, 99),
            bitratePoints := [⟨0, 0, 0, false⟩] }
        (sampleUnit 3 20 40 (100, 139)) = some (false, s2) ∧
      s2.counterAU = 1 ∧
      s2.sizeCurrentAU = 100 ∧
      s2.curFrameFileStartEndPos = (0, 99) ∧
      s2.frameList = [] ∧
      s2.bitratePoints = [⟨0, 0, 0, false⟩] ++ [⟨1, 1, 100, false⟩] ∧
      s2.itemData = [] :=
  rejected_boundary_returns_early rejectingEnv
    { Parser.initial with
        counterAU := 1, sizeCurrentAU := 100, curFrameFileStartEndPos := (0, 99),
        bitratePoints := [⟨0, 0, 0, false⟩] }
    (sampleUnit 3 20 40 (100, 139)) (by decide) (by decide) (by decide)

end YUView
